import Mathlib

/-!
Verification of the LocalLink peer-to-peer file transfer application
(`src/backend/server.js` and `src/frontend/src/App.jsx`).

The development shallowly embeds the two protocol cores:

* the chunked transfer protocol of `App.jsx` (`sendFiles`, `updateStats`,
  `setupReceiverEvents`), including the byte-level classification heuristic
  the receiver uses to tell control frames from binary data
  (`data.byteLength < 1000 && text.startsWith('{') && JSON.parse(text)`);
* the rendezvous server of `server.js` (user registry, `broadcastUsers`,
  and the `signal` / `batch-request` relays).

Wire data is modelled as `List Nat` (one `Nat` per byte / code unit;
`data.toString()` is modelled as the identity on code units).  JavaScript
numbers appearing in the progress estimator are modelled as exact
rationals; display rounding (`toFixed`) is cosmetic and not modelled.
All definitions are structural or fuel-based so that concrete runs reduce
inside the kernel.
-/

namespace LocalLink

/-! ### Byte-level JSON:  JSON.stringify / JSON.parse as used by the app

The sender builds control frames with
`JSON.stringify({type:'file-header', name, size, path})` and
`JSON.stringify({type:'file-end'})`; the receiver runs `JSON.parse` on any
datum shorter than 1000 bytes that starts with `'{'` and inspects
`msg.type`.  We model `JSON.parse`'s accepted language in full for the
shapes the classifier can meet: a top-level object whose member values may
be strings, numbers, `true`, `false`, `null`, or arbitrarily nested arrays
and objects.  Nested member values are parsed and consumed exactly (so the
set of byte lists the parser accepts matches `JSON.parse`), but are
represented by the opaque constructor `jnested`: the receiver's dispatch
only ever compares `msg.type` against the two string literals and reads
the scalar `name`/`size` members, so the internal structure of a nested
member value never influences behaviour. -/

/-- JSON member values as the classifier distinguishes them.  Scalars are
kept in full; an array or object member value is parsed (and consumed)
but recorded opaquely as `jnested`, since no code path inspects its
structure — in JavaScript such a value is `!== 'file-header'` and
`!== 'file-end'`, and is not a string name nor a numeric size. -/
inductive JVal where
  | jstr (s : List Nat)
  | jnum (raw : List Nat)
  | jtrue
  | jfalse
  | jnull
  | jnested
deriving DecidableEq

/-- JSON insignificant whitespace. -/
def isWsByte (c : Nat) : Bool := c = 32 ∨ c = 9 ∨ c = 10 ∨ c = 13

/-- Drop leading JSON whitespace. -/
def skipWs : List Nat → List Nat
  | [] => []
  | c :: rest => if isWsByte c then skipWs rest else c :: rest

/-- Value of one hex digit byte, as accepted in a `\uXXXX` escape. -/
def parseHexDigit (c : Nat) : Option Nat :=
  if 48 ≤ c ∧ c ≤ 57 then some (c - 48)
  else if 97 ≤ c ∧ c ≤ 102 then some (c - 87)
  else if 65 ≤ c ∧ c ≤ 70 then some (c - 55)
  else none

/-- Single-character escapes `\" \\ \/ \b \f \n \r \t`. -/
def unescapeChar (e : Nat) : Option Nat :=
  if e = 34 then some 34
  else if e = 92 then some 92
  else if e = 47 then some 47
  else if e = 98 then some 8
  else if e = 102 then some 12
  else if e = 110 then some 10
  else if e = 114 then some 13
  else if e = 116 then some 9
  else none

/-- Prepend a decoded character to the result of a string-body parse. -/
def consChar (u : Nat) : Option (List Nat × List Nat) → Option (List Nat × List Nat)
  | some (s, r) => some (u :: s, r)
  | none => none

/-- One character of a JSON string body; `k` continues the parse after the
consumed character(s). -/
def parseStringStep (k : List Nat → Option (List Nat × List Nat)) :
    List Nat → Option (List Nat × List Nat)
  | [] => none
  | c :: rest =>
    if c = 34 then some ([], rest)
    else if c = 92 then
      match rest with
      | [] => none
      | e :: rest2 =>
        match unescapeChar e with
        | some u => consChar u (k rest2)
        | none =>
          if e = 117 then
            match rest2 with
            | h1 :: h2 :: h3 :: h4 :: rest3 =>
              match parseHexDigit h1, parseHexDigit h2, parseHexDigit h3, parseHexDigit h4 with
              | some a, some b, some c1, some d =>
                consChar (((a * 16 + b) * 16 + c1) * 16 + d) (k rest3)
              | _, _, _, _ => none
            | _ => none
          else none
    else if c < 32 then none
    else consChar c (k rest)

/-- Fuelled iteration of `parseStringStep` (each step consumes at least one
byte, so the input length bounds the iterations needed). -/
def parseStringBodyGo : Nat → List Nat → Option (List Nat × List Nat)
  | 0, _ => none
  | fuel + 1, l => parseStringStep (parseStringBodyGo fuel) l

/-- Parse the body of a JSON string after the opening quote, returning the
decoded characters and the input following the closing quote. -/
def parseStringBody (l : List Nat) : Option (List Nat × List Nat) :=
  parseStringBodyGo (l.length + 1) l

/-- Bytes that may occur inside a JSON number token. -/
def isNumByte (c : Nat) : Bool :=
  (48 ≤ c ∧ c ≤ 57) ∨ c = 45 ∨ c = 43 ∨ c = 46 ∨ c = 101 ∨ c = 69

/-- ASCII decimal digit. -/
def isDigitByte (c : Nat) : Bool := 48 ≤ c ∧ c ≤ 57

/-- Consume the integer part of a JSON number: `0` or a nonzero digit
followed by digits. -/
def chompInt : List Nat → Option (List Nat)
  | [] => none
  | c :: rest =>
    if c = 48 then some rest
    else if 49 ≤ c ∧ c ≤ 57 then some (rest.dropWhile isDigitByte)
    else none

/-- Consume an optional fraction part `.digits`. -/
def chompFrac : List Nat → Option (List Nat)
  | 46 :: rest =>
    match rest with
    | c :: rest2 => if isDigitByte c then some (rest2.dropWhile isDigitByte) else none
    | [] => none
  | l => some l

/-- Consume an optional exponent part `[eE][+-]?digits`. -/
def chompExp : List Nat → Option (List Nat)
  | c :: rest =>
    if c = 101 ∨ c = 69 then
      match rest with
      | s :: rest2 =>
        if s = 43 ∨ s = 45 then
          match rest2 with
          | d :: rest3 => if isDigitByte d then some (rest3.dropWhile isDigitByte) else none
          | [] => none
        else if isDigitByte s then some (rest2.dropWhile isDigitByte) else none
      | [] => none
    else some (c :: rest)
  | [] => some []

/-- Strip an optional leading minus sign. -/
def stripMinus : List Nat → List Nat
  | 45 :: r => r
  | r => r

/-- Does `raw` form a complete JSON number token? -/
def validNumber (raw : List Nat) : Bool :=
  match chompInt (stripMinus raw) with
  | some r1 =>
    match chompFrac r1 with
    | some r2 =>
      match chompExp r2 with
      | some r3 => r3.isEmpty
      | none => false
    | none => false
  | none => false

/-- Parse a JSON number token (maximal munch over number bytes). -/
def parseNumber (l : List Nat) : Option (JVal × List Nat) :=
  if validNumber (l.takeWhile isNumByte) then
    some (JVal.jnum (l.takeWhile isNumByte), l.drop (l.takeWhile isNumByte).length)
  else none

/-- One layer of the JSON value parser.  `kMembers` parses the members of
a (non-empty) nested object after its opening brace; `kElems` parses the
elements of a (non-empty) nested array after its opening bracket and
returns the input following the closing bracket.  Nested container values
are consumed exactly and recorded as `JVal.jnested`. -/
def parseValueStep (kMembers : List Nat → Option (List (List Nat × JVal) × List Nat))
    (kElems : List Nat → Option (List Nat)) : List Nat → Option (JVal × List Nat)
  | 34 :: rest =>
    match parseStringBody rest with
    | some (s, r) => some (JVal.jstr s, r)
    | none => none
  | 116 :: 114 :: 117 :: 101 :: rest => some (JVal.jtrue, rest)
  | 102 :: 97 :: 108 :: 115 :: 101 :: rest => some (JVal.jfalse, rest)
  | 110 :: 117 :: 108 :: 108 :: rest => some (JVal.jnull, rest)
  | 123 :: rest =>
    (match skipWs rest with
     | 125 :: r2 => some (JVal.jnested, r2)
     | _ =>
       match kMembers rest with
       | some (_, r) => some (JVal.jnested, r)
       | none => none)
  | 91 :: rest =>
    (match skipWs rest with
     | 93 :: r2 => some (JVal.jnested, r2)
     | _ =>
       match kElems rest with
       | some r => some (JVal.jnested, r)
       | none => none)
  | l => parseNumber l

/-- One member of a JSON object: key string, colon, value (via the
continuation `kValue`), then either a comma and further members (via
`kMembers`) or the closing brace.  Returns the member list and the input
following the closing brace. -/
def parseMembersStep (kValue : List Nat → Option (JVal × List Nat))
    (kMembers : List Nat → Option (List (List Nat × JVal) × List Nat))
    (l : List Nat) : Option (List (List Nat × JVal) × List Nat) :=
  match skipWs l with
  | 34 :: rest =>
    match parseStringBody rest with
    | some (key, r1) =>
      match skipWs r1 with
      | 58 :: r2 =>
        match kValue (skipWs r2) with
        | some (v, r3) =>
          match skipWs r3 with
          | 44 :: r4 =>
            match kMembers r4 with
            | some (ms, r5) => some ((key, v) :: ms, r5)
            | none => none
          | 125 :: r4 => some ([(key, v)], r4)
          | _ => none
        | none => none
      | _ => none
    | none => none
  | _ => none

/-- One element of a JSON array: a value (via `kValue`), then either a
comma and further elements (via `kElems`) or the closing bracket.
Returns the input following the closing bracket. -/
def parseElemsStep (kValue : List Nat → Option (JVal × List Nat))
    (kElems : List Nat → Option (List Nat)) (l : List Nat) : Option (List Nat) :=
  match kValue (skipWs l) with
  | some (_, r1) =>
    match skipWs r1 with
    | 44 :: r2 => kElems r2
    | 93 :: r2 => some r2
    | _ => none
  | none => none

/-- Fuelled iteration of `parseMembersStep` over a fixed value parser.
The fuel bounds the number of members; each member consumes at least one
byte, so callers pass the input length. -/
def parseMembersGo (kValue : List Nat → Option (JVal × List Nat)) :
    Nat → List Nat → Option (List (List Nat × JVal) × List Nat)
  | 0, _ => none
  | fuel + 1, l => parseMembersStep kValue (parseMembersGo kValue fuel) l

/-- Fuelled iteration of `parseElemsStep` over a fixed value parser. -/
def parseElemsGo (kValue : List Nat → Option (JVal × List Nat)) :
    Nat → List Nat → Option (List Nat)
  | 0, _ => none
  | fuel + 1, l => parseElemsStep kValue (parseElemsGo kValue fuel) l

/-- Fuelled JSON value parser.  The fuel bounds the container-nesting
depth: each nesting level consumes at least one byte before recursing, so
input length suffices.  The member/element loops inside one container are
driven by their own length-bounded fuel. -/
def parseValueGo : Nat → List Nat → Option (JVal × List Nat)
  | 0, _ => none
  | fuel + 1, l =>
    parseValueStep
      (fun rest => parseMembersGo (parseValueGo fuel) (rest.length + 1) rest)
      (fun rest => parseElemsGo (parseValueGo fuel) (rest.length + 1) rest)
      l

/-- Parse one JSON value at the front of a byte list. -/
def parseValue (l : List Nat) : Option (JVal × List Nat) :=
  parseValueGo (l.length + 1) l

/-- Parse a whole byte list as a single JSON object (the only top-level
shape the receiver's `msg.type` check can accept: the datum starts with
`'{'`, so a successful `JSON.parse` yields an object). -/
def parseTopObject (b : List Nat) : Option (List (List Nat × JVal)) :=
  match skipWs b with
  | 123 :: rest =>
    match skipWs rest with
    | 125 :: r2 => if (skipWs r2).isEmpty then some [] else none
    | _ =>
      match parseMembersGo parseValue (rest.length + 1) rest with
      | some (ms, r) => if (skipWs r).isEmpty then some ms else none
      | none => none
  | _ => none

/-- Prefer the later occurrence of a key, falling back to the current one. -/
def fieldOrElse (later : Option JVal) (k : List Nat) (v : JVal) (key : List Nat) : Option JVal :=
  match later with
  | some w => some w
  | none => if k = key then some v else none

/-- Last member with the given key wins, as in JavaScript object literals. -/
def lookupField (fields : List (List Nat × JVal)) (key : List Nat) : Option JVal :=
  match fields with
  | [] => none
  | (k, v) :: rest => fieldOrElse (lookupField rest key) k v key

/-! ### JSON.stringify for the sender's control frames -/

/-- Hex digit byte emitted by `JSON.stringify` in `\u00XX` escapes. -/
def hexDigit (d : Nat) : Nat := if d < 10 then 48 + d else 87 + d

/-- How `JSON.stringify` renders one string character: `"` and `\` get a
backslash escape, control characters become `\u00XX`, everything else is
emitted verbatim. -/
def escapeByte (c : Nat) : List Nat :=
  if c = 34 then [92, 34]
  else if c = 92 then [92, 92]
  else if c < 32 then [92, 117, 48, 48, hexDigit (c / 16), hexDigit (c % 16)]
  else [c]

/-- Escape a whole string. -/
def escapeString (s : List Nat) : List Nat := s.flatMap escapeByte

/-- A JSON string literal: quote, escaped body, quote. -/
def quoteB (s : List Nat) : List Nat := 34 :: escapeString s ++ [34]

/-- Decimal digits of a natural number, most significant first (fuel-based
so that the kernel can evaluate it; `fuel = n + 1` is always enough). -/
def natDigitsGo : Nat → Nat → List Nat
  | 0, _ => []
  | fuel + 1, n => if n < 10 then [48 + n] else natDigitsGo fuel (n / 10) ++ [48 + n % 10]

/-- Decimal rendering of a natural number, as `JSON.stringify` prints an
integral JavaScript number. -/
def natDigits (n : Nat) : List Nat := natDigitsGo (n + 1) n

/-- Bytes of `JSON.stringify({type:'file-header',name,size,path})` as sent
by `sendFiles` (App.jsx lines 535-541).  The literal segments are the
ASCII bytes of  `{"type":"file-header","name":` , `,"size":` , `,"path":`
and `}`. -/
def encodeHeader (name : List Nat) (size : Nat) (path : List Nat) : List Nat :=
  [123, 34, 116, 121, 112, 101, 34, 58, 34, 102, 105, 108, 101, 45, 104, 101, 97, 100,
   101, 114, 34, 44, 34, 110, 97, 109, 101, 34, 58] ++ quoteB name ++
  ([44, 34, 115, 105, 122, 101, 34, 58] ++ natDigits size ++
   ([44, 34, 112, 97, 116, 104, 34, 58] ++ quoteB path ++ [125]))

/-- Bytes of `JSON.stringify({type:'file-end'})` (App.jsx line 571). -/
def encodeEnd : List Nat :=
  [123, 34, 116, 121, 112, 101, 34, 58, 34, 102, 105, 108, 101, 45, 101, 110, 100, 34, 125]

/-! ### The receiver's control-frame classifier -/

/-- ASCII bytes of the member key `type`. -/
def typeKey : List Nat := [116, 121, 112, 101]

/-- ASCII bytes of the member key `name`. -/
def nameKey : List Nat := [110, 97, 109, 101]

/-- ASCII bytes of the member key `size`. -/
def sizeKey : List Nat := [115, 105, 122, 101]

/-- ASCII bytes of the string value `file-header`. -/
def fileHeaderVal : List Nat := [102, 105, 108, 101, 45, 104, 101, 97, 100, 101, 114]

/-- ASCII bytes of the string value `file-end`. -/
def fileEndVal : List Nat := [102, 105, 108, 101, 45, 101, 110, 100]

/-- Control messages the receiver's data handler reacts to.  `name` and
`size` are the `msg.name` / `msg.size` fields of a parsed header (absent
or non-scalar fields are `none` / ignored, as the handler only reads these
two). -/
inductive CtrlMsg where
  | header (name : Option (List Nat)) (size : Option (List Nat))
  | endMarker
deriving DecidableEq

/-- The receiver's classification heuristic (App.jsx lines 635-643 and the
`msg.type` dispatch at 646 / 674): a datum is a control frame iff it is
shorter than 1000 bytes, starts with `'{'`, parses as JSON, and its `type`
member is `"file-header"` or `"file-end"`.  Anything else — including
well-formed JSON with a different `type` — falls through to the binary
branch. -/
def classifyData (b : List Nat) : Option CtrlMsg :=
  if b.length < 1000 ∧ b.head? = some 123 then
    match parseTopObject b with
    | some fields =>
      match lookupField fields typeKey with
      | some (JVal.jstr t) =>
        if t = fileHeaderVal then
          some (CtrlMsg.header
            (match lookupField fields nameKey with
             | some (JVal.jstr s) => some s
             | _ => none)
            (match lookupField fields sizeKey with
             | some (JVal.jnum r) => some r
             | _ => none))
        else if t = fileEndVal then some CtrlMsg.endMarker
        else none
      | _ => none
    | none => none
  else none

/-! ### ChunkedSender (App.jsx `sendFiles`, lines 512-583) -/

/-- `CHUNK_SIZE = 64 * 1024` (App.jsx line 126). -/
def CHUNK_SIZE : Nat := 64 * 1024

/-- `BUFFER_THRESHOLD = 1024 * 1024` (App.jsx line 127). -/
def BUFFER_THRESHOLD : Nat := 1024 * 1024

/-- A file as selected in the UI: `file.name`, its content bytes
(`file.size` is the content length), and `file.webkitRelativePath ||
file.name`. -/
structure FileData where
  name : List Nat
  content : List Nat
  path : List Nat
deriving DecidableEq

/-- Protocol frames at the logical level. -/
inductive Frame where
  | header (name : List Nat) (size : Nat) (path : List Nat)
  | chunk (payload : List Nat)
  | endMarker
deriving DecidableEq

/-- Slice a list into consecutive pieces of `k` elements, the final piece
possibly shorter — the sender's `file.slice(offset, offset + CHUNK_SIZE)`
loop.  Fuel-based (each step consumes at least one element for `k ≥ 1`, so
`l.length` steps suffice). -/
def chunksOfGo (k : Nat) : Nat → List Nat → List (List Nat)
  | 0, _ => []
  | _, [] => []
  | fuel + 1, l => l.take k :: chunksOfGo k fuel (l.drop k)

/-- The chunks `sendFiles` slices a file's content into. -/
def chunksOf (k : Nat) (l : List Nat) : List (List Nat) := chunksOfGo k l.length l

/-- Frames emitted for one file (App.jsx lines 533-571): one header, the
content chunks in order, one end marker. -/
def sendFileFrames (f : FileData) : List Frame :=
  Frame.header f.name f.content.length f.path ::
    (chunksOf CHUNK_SIZE f.content).map Frame.chunk ++ [Frame.endMarker]

/-- Frames emitted by `sendFiles` for a list of files, in list order, each
file completed before the next starts (the `for` loop at line 530). -/
def sendFilesFrames (files : List FileData) : List Frame :=
  files.flatMap sendFileFrames

/-- Wire bytes of a frame: headers and end markers travel as JSON text,
chunks as raw bytes. -/
def encodeFrame : Frame → List Nat
  | Frame.header n s p => encodeHeader n s p
  | Frame.chunk b => b
  | Frame.endMarker => encodeEnd

/-- The exact datum sequence the receiver's data handler sees for an
error-free `sendFiles` run. -/
def sendFilesWire (files : List FileData) : List (List Nat) :=
  (sendFilesFrames files).map encodeFrame

/-! ### Backpressure (App.jsx lines 546-567)

Before sending a chunk the sender checks `bufferedAmount > BUFFER_THRESHOLD`
and, if so, polls every 5 ms until `bufferedAmount < BUFFER_THRESHOLD`.
The network drains the channel between polls; `drain t` is the number of
buffered bytes the transport flushed during tick `t`.  `fuel` bounds the
poll loop (a run that would poll forever returns `none`). -/

/-- The `check()` poll loop inside the backpressure promise (lines
552-558): resolve once the buffered amount is below the threshold,
otherwise let the network drain for one tick and re-check.  Returns the
buffered amount at resolution and the next tick index. -/
def waitBelow (drain : Nat → Nat) : Nat → Nat → Nat → Option (Nat × Nat)
  | 0, _, _ => none
  | fuel + 1, tick, buf =>
    if buf < BUFFER_THRESHOLD then some (buf, tick)
    else waitBelow drain fuel (tick + 1) (buf - drain tick)

/-- One observed chunk enqueue: the buffered amount just before
`peerConnection.send`, the chunk length, and the buffered amount just
after. -/
structure SendStep where
  bufAtEnqueue : Nat
  chunkLen : Nat
  bufAfterEnqueue : Nat
deriving DecidableEq

/-- The chunk loop of `sendFiles` with backpressure (lines 545-567): for
each chunk, wait out backpressure if the buffered amount exceeds the
threshold, enqueue the chunk, and let the network drain one tick while
the next chunk is sliced. -/
def sendChunkStep (drain : Nat → Nat) (fuel : Nat) (c : List Nat)
    (k : Nat → Nat → Option (List SendStep × Nat × Nat)) (buf tick : Nat) :
    Option (List SendStep × Nat × Nat) :=
  match if BUFFER_THRESHOLD < buf then waitBelow drain fuel tick buf
        else some (buf, tick) with
  | none => none
  | some (buf1, tick1) =>
    let buf2 := buf1 + c.length
    match k (buf2 - drain tick1) (tick1 + 1) with
    | some (steps, bufF, tickF) =>
      some ({ bufAtEnqueue := buf1, chunkLen := c.length, bufAfterEnqueue := buf2 } ::
            steps, bufF, tickF)
    | none => none

/-- Iterate `sendChunkStep` over the chunk list. -/
def sendChunksBP (drain : Nat → Nat) (fuel : Nat) :
    List (List Nat) → Nat → Nat → Option (List SendStep × Nat × Nat)
  | [], buf, tick => some ([], buf, tick)
  | c :: cs, buf, tick => sendChunkStep drain fuel c (sendChunksBP drain fuel cs) buf tick

/-! ### Per-file error isolation (App.jsx lines 530-577)

Each loop iteration wraps one file's header/chunks/end in `try … catch`;
a transport error mid-file stops that file's remaining frames and is
surfaced as a toast, and the loop continues with the next file.  The
error oracle gives, per file index, the frame position at which
`peerConnection.send` (or `chunk.arrayBuffer()`) throws, if any. -/

/-- Frames actually emitted for one file when the oracle makes the send
throw at frame position `k` (counting the header as frame 0), and whether
the catch block ran. -/
def sendFileFramesE (throwAt : Option Nat) (f : FileData) : List Frame × Bool :=
  let frames := sendFileFrames f
  match throwAt with
  | none => (frames, false)
  | some k => if k < frames.length then (frames.take k, true) else (frames, false)

/-- Outcome recorded for one file: the frames that reached the transport
and whether the `Failed to send` toast fired. -/
structure FileOutcome where
  frames : List Frame
  errored : Bool
deriving DecidableEq

/-- The `for` loop of `sendFiles` under the error oracle: the `catch`
swallows the current file's error and the loop always advances, so every
file gets an outcome.  `i` is the index of the first file. -/
def sendFilesE (oracle : Nat → Option Nat) (i : Nat) : List FileData → List FileOutcome
  | [] => []
  | f :: fs =>
    let r := sendFileFramesE (oracle i) f
    { frames := r.1, errored := r.2 } :: sendFilesE oracle (i + 1) fs

/-! ### StreamReceiver (App.jsx `setupReceiverEvents`, lines 622-709)

The handler's closure state is `currentFileMeta`, `writable`, `chunks`,
`receivedBytes`.  Whether the streaming writer is used is fixed by the
environment (`isIOS` / `streamSaver.supported` / `createWriteStream`
succeeding) and modelled by the `useWriter` parameter; a writer is the
list of byte blocks written to it so far. -/

/-- The `currentFileMeta` fields the handler reads: `msg.name`, `msg.size`. -/
structure HdrMeta where
  name : Option (List Nat)
  size : Option (List Nat)
deriving DecidableEq

/-- Closure state of the receiver's data handler. -/
structure RecvState where
  currentFileMeta : Option HdrMeta
  writable : Option (List (List Nat))
  chunks : List (List Nat)
  receivedBytes : Nat
deriving DecidableEq

/-- Initial closure state (App.jsx lines 624-629). -/
def initRecvState : RecvState :=
  { currentFileMeta := none, writable := none, chunks := [], receivedBytes := 0 }

/-- Observable effects of one data event.  `fileSaved` is the
materialization of a file (writer close, or Blob download); `toastSuccess`
is the `Received: name` toast; `toastError` is the error-toast facility
(`addToast(…, 'error')`), which the data handler never invokes; `jsError`
marks the `TypeError` thrown when line 675 dereferences a null
`currentFileMeta`. -/
inductive REvent where
  | fileSaved (viaWriter : Bool) (name : Option (List Nat)) (content : List Nat)
  | toastSuccess (name : Option (List Nat))
  | toastError
  | jsError
deriving DecidableEq

/-- One step of the data handler (App.jsx lines 631-708). -/
def onData (useWriter : Bool) (st : RecvState) (data : List Nat) : RecvState × List REvent :=
  match classifyData data with
  | some (CtrlMsg.header n s) =>
    -- lines 646-671: overwrite the meta, reset the byte counter, open a sink
    ({ currentFileMeta := some { name := n, size := s },
       writable := if useWriter then some [] else st.writable,
       chunks := if useWriter then st.chunks else [],
       receivedBytes := 0 }, [])
  | some CtrlMsg.endMarker =>
    match st.currentFileMeta with
    | none => (st, [REvent.jsError])
    | some m =>
      match st.writable with
      | some w =>
        -- lines 677-679: close the writer
        ({ st with writable := none, currentFileMeta := none },
         [REvent.fileSaved true m.name w.flatten, REvent.toastSuccess m.name])
      | none =>
        -- lines 680-691: Blob materialization and download
        ({ st with chunks := [], currentFileMeta := none },
         [REvent.fileSaved false m.name st.chunks.flatten, REvent.toastSuccess m.name])
  | none =>
    -- lines 699-707: binary data
    match st.currentFileMeta with
    | some _ =>
      match st.writable with
      | some w =>
        ({ st with writable := some (w ++ [data]),
                   receivedBytes := st.receivedBytes + data.length }, [])
      | none =>
        ({ st with chunks := st.chunks ++ [data],
                   receivedBytes := st.receivedBytes + data.length }, [])
    | none => (st, [])

/-- Run the data handler over a datum sequence, collecting events. -/
def runRecvGo (useWriter : Bool) (st : RecvState) : List (List Nat) → RecvState × List REvent
  | [] => (st, [])
  | d :: rest =>
    let s1 := onData useWriter st d
    let s2 := runRecvGo useWriter s1.1 rest
    (s2.1, s1.2 ++ s2.2)

/-- Run the data handler from the initial closure state. -/
def runReceiver (useWriter : Bool) (datas : List (List Nat)) : RecvState × List REvent :=
  runRecvGo useWriter initRecvState datas

/-- The files a run materialized, in order: (name, content bytes). -/
def savedFiles (evs : List REvent) : List (Option (List Nat) × List Nat) :=
  evs.filterMap fun e =>
    match e with
    | REvent.fileSaved _ n c => some (n, c)
    | _ => none

/-! ### RendezvousServer (server.js) -/

/-- A registry entry: `{ id: socket.id, name: userName }`. -/
structure Peer where
  id : String
  name : String
deriving DecidableEq

/-- `broadcastUsers` (server.js lines 98-102) emits
`Array.from(users.values())` — the full current list, including each
recipient itself — to every socket in the lobby. -/
def broadcastPayload (users : List Peer) : List Peer := users

/-- The client's `users` handler (App.jsx lines 187-192): it keeps
`userList.filter(u => u.id !== newSocket.id)`. -/
def usersHandler (selfId : String) (userList : List Peer) : List Peer :=
  userList.filter fun u => u.id ≠ selfId

/-- Server state: the sockets currently connected (all of which
`socket.join(MAIN_LOBBY)` puts in the lobby, server.js line 24) and the
`users` map in insertion order. -/
structure ServerState where
  connected : List String
  users : List Peer
deriving DecidableEq

/-- `users.set(id, peer)`: update in place if present, else append. -/
def mapSet (users : List Peer) (p : Peer) : List Peer :=
  if users.any fun q => q.id = p.id then
    users.map fun q => if q.id = p.id then p else q
  else users ++ [p]

/-- A socket connects (server.js lines 21-24). -/
def onConnection (s : ServerState) (sid : String) : ServerState :=
  { s with connected := s.connected ++ [sid] }

/-- The `join` event (server.js lines 27-38); `nm` is the resolved name. -/
def onJoin (s : ServerState) (sid : String) (nm : String) : ServerState :=
  { s with users := mapSet s.users { id := sid, name := nm } }

/-- The `disconnect` event (server.js lines 85-92). -/
def onDisconnect (s : ServerState) (sid : String) : ServerState :=
  { connected := s.connected.filter fun c => c ≠ sid,
    users := s.users.filter fun p => p.id ≠ sid }

/-- Server states reachable from startup (empty registry, no sockets).
`join` and `disconnect` events only arrive on a live socket connection. -/
inductive Reachable : ServerState → Prop where
  | init : Reachable { connected := [], users := [] }
  | conn (s : ServerState) (sid : String) :
      Reachable s → Reachable (onConnection s sid)
  | join (s : ServerState) (sid nm : String) :
      Reachable s → sid ∈ s.connected → Reachable (onJoin s sid nm)
  | disc (s : ServerState) (sid : String) :
      Reachable s → Reachable (onDisconnect s sid)

/-- The `signal` relay (server.js lines 42-54): `io.to(data.to)` delivers
`{signal, from}` to the socket with id `to` iff that socket is connected;
the registry is consulted only for log output.  The result is the list of
(recipient socket, delivered message) pairs. -/
def relaySignal (s : ServerState) (fromId toId : String) (signal : List Nat) :
    List (String × (List Nat × String)) :=
  if toId ∈ s.connected then [(toId, (signal, fromId))] else []

/-- What a forwarded `batch-request` carries (server.js lines 63-70). -/
structure BatchReqOut where
  fromId : String
  fromName : String
  fileCount : Nat
  totalSize : String
  totalBytes : Nat
deriving DecidableEq

/-- `users.get(id)?.name`. -/
def lookupName (users : List Peer) (sid : String) : Option String :=
  match users with
  | [] => none
  | p :: rest => if p.id = sid then some p.name else lookupName rest sid

/-- The `batch-request` relay (server.js lines 57-71): forwards the
request fields verbatim, adding the sender's display name (or `Unknown`),
to the socket with id `to` iff it is connected. -/
def relayBatchRequest (s : ServerState) (fromId toId : String)
    (fileCount : Nat) (totalSize : String) (totalBytes : Nat) :
    List (String × BatchReqOut) :=
  if toId ∈ s.connected then
    [(toId, { fromId := fromId,
              fromName := (lookupName s.users fromId).getD "Unknown",
              fileCount := fileCount, totalSize := totalSize,
              totalBytes := totalBytes })]
  else []

/-! ### ProgressEstimator (App.jsx `updateStats`, lines 585-620)

Times are in integral milliseconds and byte counts are integers (exact
JavaScript values in every reachable run); the divisions `timeDiff`,
`speedBytesPerSec` and `etaSeconds` are exact rationals.  The displayed
speed string applies a cosmetic unit conversion and `toFixed(1)` to
`speedBytesPerSec`, which we do not model. -/

/-- Result of `formatTime` (App.jsx lines 36-41): either the placeholder
`--:--` (non-finite or negative input) or `${m}m ${s}s`. -/
inductive Eta where
  | unknown
  | mmss (m s : ℤ)
deriving DecidableEq

/-- `formatTime(seconds)`; on rationals only negativity can trigger the
placeholder. -/
def formatTime (seconds : ℚ) : Eta :=
  if seconds < 0 then Eta.unknown
  else Eta.mmss ⌊seconds / 60⌋ ⌊seconds - 60 * (⌊seconds / 60⌋ : ℚ)⌋

/-- The refs `lastTimeRef` / `lastBytesRef`. -/
structure RefsState where
  lastTime : ℤ
  lastBytes : ℤ
deriving DecidableEq

/-- The React `stats` state. -/
structure StatsView where
  totalFiles : Nat
  processedFiles : Nat
  totalBytes : ℤ
  processedBytes : ℤ
  speed : ℚ
  eta : Eta
  currentFile : String
deriving DecidableEq

/-- `timeDiff = (now - lastTimeRef.current) / 1000` (App.jsx line 588). -/
def timeDiffQ (now : ℤ) (refs : RefsState) : ℚ :=
  ((now - refs.lastTime : ℤ) : ℚ) / 1000

/-- `speedBytesPerSec = timeDiff > 0 ? bytesDiff / timeDiff : 0`
(App.jsx lines 593-594). -/
def statsSpeed (now : ℤ) (refs : RefsState) (processedBytes : ℤ) : ℚ :=
  if 0 < timeDiffQ now refs then
    ((processedBytes - refs.lastBytes : ℤ) : ℚ) / timeDiffQ now refs
  else 0

/-- `etaSeconds = speedBytesPerSec > 0 ? remainingBytes / speedBytesPerSec
: 0` (App.jsx lines 597-598). -/
def statsEta (now : ℤ) (refs : RefsState) (totalBytes processedBytes : ℤ) : ℚ :=
  if 0 < statsSpeed now refs processedBytes then
    ((totalBytes - processedBytes : ℤ) : ℚ) / statsSpeed now refs processedBytes
  else 0

/-- One call of `updateStats` (App.jsx lines 586-620): drop the sample on
zero elapsed time; on a qualifying sample (elapsed ≥ 1 s or transfer
complete) recompute rate and ETA and move the refs; otherwise update only
the cosmetic fields. -/
def updateStats (now : ℤ) (refs : RefsState) (prev : StatsView)
    (totalBytes processedBytes : ℤ) (currentFile : String)
    (totalFiles processedFiles : Nat) : RefsState × StatsView :=
  if timeDiffQ now refs = 0 then (refs, prev)
  else if 1 ≤ timeDiffQ now refs ∨ processedBytes = totalBytes then
    ({ lastTime := now, lastBytes := processedBytes },
     { totalFiles := totalFiles, processedFiles := processedFiles,
       totalBytes := totalBytes, processedBytes := processedBytes,
       speed := statsSpeed now refs processedBytes,
       eta := formatTime (statsEta now refs totalBytes processedBytes),
       currentFile := currentFile })
  else
    (refs,
     { prev with processedFiles := processedFiles,
                 processedBytes := processedBytes,
                 currentFile := currentFile })

/-- The initial `stats` state (App.jsx lines 106-114): speed `0 MB/s`,
ETA `--:--`. -/
def initStatsView : StatsView :=
  { totalFiles := 0, processedFiles := 0, totalBytes := 0, processedBytes := 0,
    speed := 0, eta := Eta.unknown, currentFile := "Waiting..." }

/-- The wire data of one file's transmission: header bytes, the raw
chunks, the end-marker bytes. -/
def wireOfFile (f : FileData) : List (List Nat) :=
  encodeHeader f.name f.content.length f.path ::
    (chunksOf CHUNK_SIZE f.content ++ [encodeEnd])

/-- A file whose transmission survives the receiver's control-frame
heuristic: its header stays under the 1000-byte control threshold, and no
content chunk is itself classified as a control frame. -/
def goodFile (f : FileData) : Prop :=
  (encodeHeader f.name f.content.length f.path).length < 1000 ∧
  ∀ c ∈ chunksOf CHUNK_SIZE f.content, classifyData c = none

instance (f : FileData) : Decidable (goodFile f) := by
  unfold goodFile
  infer_instance

/-- Specification-side framing predicate, following the claim: for each
file in order the sender emits exactly one `Header` carrying the file's
size, then the file's content sliced into `CHUNK_SIZE`-byte chunks (only
the final chunk may be shorter, none empty) each as a `DataChunk`, then
exactly one `EndMarker`, before the next file; the chunk payload lengths
between a `Header` and its `EndMarker` sum to the declared size. -/
inductive FramingOk : List FileData → List Frame → Prop where
  | nil : FramingOk [] []
  | file (f : FileData) (files : List FileData) (cs : List (List Nat)) (rest : List Frame) :
      cs.flatten = f.content →
      ((cs.map List.length).sum = f.content.length) →
      (∀ c ∈ cs.dropLast, c.length = CHUNK_SIZE) →
      (∀ c ∈ cs, c.length ≤ CHUNK_SIZE ∧ c ≠ []) →
      FramingOk files rest →
      FramingOk (f :: files)
        (Frame.header f.name f.content.length f.path ::
          (cs.map Frame.chunk ++ (Frame.endMarker :: rest)))

/-- ASCII bytes of the member key `path`. -/
def pathKey : List Nat := [112, 97, 116, 104]

/-- The member list `JSON.parse` yields for an encoded header. -/
def headerFields (name : List Nat) (size : Nat) (path : List Nat) : List (List Nat × JVal) :=
  [(typeKey, JVal.jstr fileHeaderVal), (nameKey, JVal.jstr name),
   (sizeKey, JVal.jnum (natDigits size)), (pathKey, JVal.jstr path)]

/-- How `JSON.stringify` renders a scalar value.  The sender only ever
stringifies scalar members (`GoodVal` below), so the opaque `jnested`
case is given an arbitrary rendering and excluded from every inversion
lemma. -/
def encodeVal : JVal → List Nat
  | JVal.jstr s => 34 :: (escapeString s ++ [34])
  | JVal.jnum raw => raw
  | JVal.jtrue => [116, 114, 117, 101]
  | JVal.jfalse => [102, 97, 108, 115, 101]
  | JVal.jnull => [110, 117, 108, 108]
  | JVal.jnested => []

/-- The bytes following the opening brace of a stringified object:
comma-separated `"key":value` members, then the closing brace. -/
def encodeMembersTail : List (List Nat × JVal) → List Nat
  | [] => [125]
  | (k, v) :: rest =>
    34 :: (escapeString k ++ (34 :: 58 :: (encodeVal v ++
      ((if rest.isEmpty then [] else [44]) ++ encodeMembersTail rest))))

/-- Values for which the scalar parser inverts the encoder: any string, and
the canonical decimal rendering of a natural number. -/
def GoodVal (v : JVal) : Prop :=
  (∃ s, v = JVal.jstr s) ∨ (∃ n, v = JVal.jnum (natDigits n))

/-! ### Inversion of the control-frame encoders through the classifier -/

theorem parseHexDigit_hexDigit (d : Nat) (h : d < 16) :
    parseHexDigit (hexDigit d) = some d := by
  unfold hexDigit parseHexDigit
  split_ifs <;> simp_all <;> omega

theorem escapeByte_length (c : Nat) : 1 ≤ (escapeByte c).length := by
  unfold escapeByte; split_ifs <;> simp

theorem escapeString_length (s : List Nat) : s.length ≤ (escapeString s).length := by
  induction s with
  | nil => simp [escapeString]
  | cons c s ih =>
    have h1 := escapeByte_length c
    simp only [escapeString, List.flatMap_cons, List.length_append, List.length_cons]
    simp only [escapeString] at ih
    omega

theorem parseStringBodyGo_escape (s : List Nat) :
    ∀ (fuel : Nat) (rest : List Nat), s.length < fuel →
    parseStringBodyGo fuel (escapeString s ++ (34 :: rest)) = some (s, rest) := by
  induction s with
  | nil =>
    intro fuel rest h
    obtain ⟨f, rfl⟩ : ∃ f, fuel = f + 1 := ⟨fuel - 1, by omega⟩
    rw [show escapeString [] = [] from rfl, List.nil_append]
    simp [parseStringBodyGo, parseStringStep]
  | cons c s ih =>
    intro fuel rest h
    obtain ⟨f, rfl⟩ : ∃ f, fuel = f + 1 := ⟨fuel - 1, by omega⟩
    have hf : s.length < f := by simp at h; omega
    rw [show escapeString (c :: s) = escapeByte c ++ escapeString s from by simp [escapeString],
        List.append_assoc]
    by_cases h34 : c = 34
    · subst h34
      rw [show escapeByte 34 = [92, 34] from rfl, List.cons_append, List.cons_append,
        List.nil_append]
      simp [parseStringBodyGo, parseStringStep, unescapeChar, consChar, ih _ _ hf]
    · by_cases h92 : c = 92
      · subst h92
        rw [show escapeByte 92 = [92, 92] from rfl, List.cons_append, List.cons_append,
          List.nil_append]
        simp [parseStringBodyGo, parseStringStep, unescapeChar, consChar, ih _ _ hf]
      · by_cases hctl : c < 32
        · rw [show escapeByte c = [92, 117, 48, 48, hexDigit (c / 16), hexDigit (c % 16)]
              from by simp [escapeByte, h34, h92, hctl]]
          simp only [List.cons_append, List.nil_append]
          rw [show parseStringBodyGo (f + 1) = parseStringStep (parseStringBodyGo f) from rfl,
            parseStringStep.eq_def]
          simp only [show unescapeChar 117 = none from rfl,
            show parseHexDigit 48 = some 0 from rfl,
            parseHexDigit_hexDigit _ (show c / 16 < 16 by omega),
            parseHexDigit_hexDigit _ (show c % 16 < 16 by omega)]
          simp [consChar, ih _ _ hf]
          omega
        · rw [show escapeByte c = [c] from by simp [escapeByte, h34, h92, hctl],
            List.cons_append, List.nil_append]
          simp [parseStringBodyGo, parseStringStep, h34, h92, hctl, consChar, ih _ _ hf]

theorem parseStringBody_escape (s : List Nat) (rest : List Nat) :
    parseStringBody (escapeString s ++ (34 :: rest)) = some (s, rest) := by
  have hlen := escapeString_length s
  refine parseStringBodyGo_escape s _ rest ?_
  simp
  omega

theorem natDigitsGo_fuel (fuel : Nat) :
    ∀ (fuel2 n : Nat), n < fuel → n < fuel2 → natDigitsGo fuel n = natDigitsGo fuel2 n := by
  induction fuel with
  | zero => intro fuel2 n h; omega
  | succ f ih =>
    intro fuel2 n h h2
    obtain ⟨f2, rfl⟩ : ∃ k, fuel2 = k + 1 := ⟨fuel2 - 1, by omega⟩
    by_cases h10 : n < 10
    · simp [natDigitsGo, h10]
    · rw [natDigitsGo.eq_def, natDigitsGo.eq_def]
      simp only [if_neg h10]
      rw [ih f2 (n / 10) (by omega) (by omega)]

theorem natDigits_unfold (n : Nat) :
    natDigits n = if n < 10 then [48 + n] else natDigits (n / 10) ++ [48 + n % 10] := by
  unfold natDigits
  rw [natDigitsGo.eq_def]
  by_cases h10 : n < 10
  · simp [h10]
  · simp only [if_neg h10]
    rw [natDigitsGo_fuel n (n / 10 + 1) (n / 10) (by omega) (by omega)]

theorem natDigits_spec (n : Nat) :
    (∀ c ∈ natDigits n, 48 ≤ c ∧ c ≤ 57) ∧
    (∃ c cs, natDigits n = c :: cs ∧ 48 ≤ c ∧ c ≤ 57 ∧ (n ≠ 0 → 49 ≤ c)) := by
  induction n using Nat.strong_induction_on with
  | _ n ih =>
    rw [natDigits_unfold]
    by_cases h10 : n < 10
    · simp [h10]; omega
    · simp only [if_neg h10]
      obtain ⟨hall, c, cs, heq, hc1, hc2, hc3⟩ := ih (n / 10) (by omega)
      constructor
      · intro x hx
        rcases List.mem_append.mp hx with hx | hx
        · exact hall x hx
        · simp at hx; omega
      · refine ⟨c, cs ++ [48 + n % 10], by rw [heq]; simp, hc1, hc2, fun _ => hc3 (by omega)⟩

theorem dropWhile_all {p : Nat → Bool} (l : List Nat) (h : ∀ x ∈ l, p x) :
    l.dropWhile p = [] := by
  induction l with
  | nil => rfl
  | cons c l ih =>
    rw [List.dropWhile_cons]
    simp [h c (by simp), ih fun x hx => h x (by simp [hx])]

theorem takeWhile_append_cons {p : Nat → Bool} (A : List Nat) (b : Nat) (B : List Nat)
    (hA : ∀ a ∈ A, p a) (hb : p b = false) : (A ++ b :: B).takeWhile p = A := by
  induction A with
  | nil => simp [List.takeWhile_cons, hb]
  | cons a A ih =>
    simp only [List.cons_append, List.takeWhile_cons, hA a (by simp)]
    rw [ih fun x hx => hA x (by simp [hx])]
    simp

theorem validNumber_natDigits (n : Nat) : validNumber (natDigits n) = true := by
  obtain ⟨hall, c, cs, heq, hc1, hc2, hc3⟩ := natDigits_spec n
  have hcs : ∀ x ∈ cs, isDigitByte x = true := by
    intro x hx
    have := hall x (by rw [heq]; simp [hx])
    simp [isDigitByte]; omega
  rw [heq]
  unfold validNumber
  have h45 : ¬ c = 45 := by omega
  rw [show stripMinus (c :: cs) = c :: cs from by
    rw [stripMinus.eq_def]; simp [h45]]
  by_cases hn : n = 0
  · subst hn
    have h0 : natDigits 0 = [48] := rfl
    rw [h0] at heq
    injection heq with heqc heqcs
    rw [← heqc, ← heqcs]
    rfl
  · have h49 : 49 ≤ c := hc3 hn
    rw [show chompInt (c :: cs) = some (cs.dropWhile isDigitByte) from by
      simp [chompInt, show ¬ c = 48 by omega, h49, hc2]]
    rw [dropWhile_all cs hcs]
    rfl

theorem isNumByte_digit (c : Nat) (h1 : 48 ≤ c) (h2 : c ≤ 57) : isNumByte c = true := by
  simp [isNumByte]; omega

theorem parseNumber_natDigits (n : Nat) (b : Nat) (rest : List Nat)
    (hb : isNumByte b = false) :
    parseNumber (natDigits n ++ b :: rest) = some (JVal.jnum (natDigits n), b :: rest) := by
  obtain ⟨hall, _⟩ := natDigits_spec n
  have htake : (natDigits n ++ b :: rest).takeWhile isNumByte = natDigits n :=
    takeWhile_append_cons _ _ _ (fun a ha => isNumByte_digit a (hall a ha).1 (hall a ha).2) hb
  unfold parseNumber
  rw [htake, validNumber_natDigits, List.drop_left]
  simp

theorem parseValueGo_succ (fuel : Nat) (l : List Nat) :
    parseValueGo (fuel + 1) l =
      parseValueStep
        (fun rest => parseMembersGo (parseValueGo fuel) (rest.length + 1) rest)
        (fun rest => parseElemsGo (parseValueGo fuel) (rest.length + 1) rest) l := by
  rw [parseValueGo.eq_def]

theorem parseValue_quote (s rest2 : List Nat) :
    parseValue (34 :: (escapeString s ++ (34 :: rest2))) = some (JVal.jstr s, rest2) := by
  unfold parseValue
  rw [parseValueGo_succ, parseValueStep.eq_def]
  simp [parseStringBody_escape]

theorem parseValue_digit (c : Nat) (h1 : 48 ≤ c) (h2 : c ≤ 57) (l : List Nat) :
    parseValue (c :: l) = parseNumber (c :: l) := by
  unfold parseValue
  rw [parseValueGo_succ]
  interval_cases c <;> rfl

theorem skipWs_not_ws (c : Nat) (l : List Nat) (h : isWsByte c = false) :
    skipWs (c :: l) = c :: l := by
  rw [skipWs.eq_def]; simp [h]

theorem parseMembersGo_succ (kValue : List Nat → Option (JVal × List Nat))
    (fuel : Nat) (l : List Nat) :
    parseMembersGo kValue (fuel + 1) l =
      parseMembersStep kValue (parseMembersGo kValue fuel) l := by
  rw [parseMembersGo.eq_def]

theorem parseValue_natDigits (n : Nat) (b : Nat) (rest : List Nat)
    (hb : isNumByte b = false) :
    parseValue (natDigits n ++ b :: rest) = some (JVal.jnum (natDigits n), b :: rest) := by
  obtain ⟨hall, c, cs, heq, hc1, hc2, _⟩ := natDigits_spec n
  rw [heq, List.cons_append, parseValue_digit c hc1 hc2, ← List.cons_append, ← heq]
  exact parseNumber_natDigits n b rest hb

theorem parseValue_encodeVal (v : JVal) (hv : GoodVal v) (b : Nat) (tail : List Nat)
    (hb : isNumByte b = false) :
    parseValue (encodeVal v ++ (b :: tail)) = some (v, b :: tail) := by
  rcases hv with ⟨s, rfl⟩ | ⟨n, rfl⟩
  · rw [show encodeVal (JVal.jstr s) ++ (b :: tail) =
        34 :: (escapeString s ++ (34 :: b :: tail)) from by simp [encodeVal]]
    exact parseValue_quote s (b :: tail)
  · exact parseValue_natDigits n b tail hb

theorem skipWs_natDigits (n : Nat) (rest : List Nat) :
    skipWs (natDigits n ++ rest) = natDigits n ++ rest := by
  obtain ⟨_, c, cs, heq, hc1, hc2, _⟩ := natDigits_spec n
  rw [heq, List.cons_append, skipWs_not_ws c _ (by simp [isWsByte]; omega)]

theorem skipWs_encodeVal (v : JVal) (hv : GoodVal v) (rest : List Nat) :
    skipWs (encodeVal v ++ rest) = encodeVal v ++ rest := by
  rcases hv with ⟨s, rfl⟩ | ⟨n, rfl⟩
  · rw [show encodeVal (JVal.jstr s) ++ rest =
        34 :: ((escapeString s ++ [34]) ++ rest) from by simp [encodeVal],
      skipWs_not_ws 34 _ (by decide)]
  · exact skipWs_natDigits n rest

theorem encodeMembersTail_nil : encodeMembersTail [] = [125] := rfl

theorem encodeMembersTail_length (ms : List (List Nat × JVal)) :
    ms.length ≤ (encodeMembersTail ms).length := by
  induction ms with
  | nil => simp [encodeMembersTail]
  | cons kv rest ih =>
    obtain ⟨k, v⟩ := kv
    simp only [encodeMembersTail, List.length_cons, List.length_append]
    omega

theorem parseMembersGo_encode (ms : List (List Nat × JVal)) :
    ∀ fuel, ms ≠ [] → ms.length < fuel → (∀ kv ∈ ms, GoodVal kv.2) →
    parseMembersGo parseValue fuel (encodeMembersTail ms) = some (ms, []) := by
  induction ms with
  | nil => intro fuel h; exact absurd rfl h
  | cons kv rest ih =>
    intro fuel _ hlen hgood
    obtain ⟨k, v⟩ := kv
    obtain ⟨f, rfl⟩ : ∃ f, fuel = f + 1 := ⟨fuel - 1, by omega⟩
    have hv := hgood (k, v) (by simp)
    rw [parseMembersGo_succ]
    by_cases hrest : rest = []
    · subst hrest
      have hps := parseValue_encodeVal v hv 125 [] (by decide)
      have hsw := skipWs_encodeVal v hv (125 :: [])
      rw [encodeMembersTail.eq_def]
      simp [parseMembersStep, skipWs_not_ws, isWsByte, parseStringBody_escape, hps, hsw,
        encodeMembersTail_nil]
    · obtain ⟨kv2, rest2, rfl⟩ : ∃ a b, rest = a :: b := by
        cases rest with
        | nil => exact absurd rfl hrest
        | cons a b => exact ⟨a, b, rfl⟩
      have hih := ih f (by simp) (by simp at hlen ⊢; omega) fun x hx => hgood x (by simp [hx])
      have hps := parseValue_encodeVal v hv 44 (encodeMembersTail (kv2 :: rest2)) (by decide)
      have hsw := skipWs_encodeVal v hv (44 :: encodeMembersTail (kv2 :: rest2))
      conv_lhs => rw [encodeMembersTail.eq_def]
      simp [parseMembersStep, skipWs_not_ws, isWsByte, parseStringBody_escape, hps, hsw, hih]

theorem parseTopObject_members (ms : List (List Nat × JVal)) (hne : ms ≠ [])
    (hgood : ∀ kv ∈ ms, GoodVal kv.2) :
    parseTopObject (123 :: encodeMembersTail ms) = some ms := by
  obtain ⟨⟨k, v⟩, rest, rfl⟩ : ∃ a b, ms = a :: b := by
    cases ms with
    | nil => exact absurd rfl hne
    | cons a b => exact ⟨a, b, rfl⟩
  have hlen := encodeMembersTail_length ((k, v) :: rest)
  have hgo := parseMembersGo_encode ((k, v) :: rest)
    ((encodeMembersTail ((k, v) :: rest)).length + 1) (by simp) (by omega) hgood
  have hT : encodeMembersTail ((k, v) :: rest) =
      34 :: (escapeString k ++ (34 :: 58 :: (encodeVal v ++
        ((if rest.isEmpty then [] else [44]) ++ encodeMembersTail rest)))) := by
    rw [encodeMembersTail.eq_def]
  rw [hT] at hgo ⊢
  unfold parseTopObject
  rw [skipWs_not_ws 123 _ (by decide)]
  simp only [skipWs_not_ws 34 _ (by decide), hgo]
  rfl

theorem encodeHeader_eq (name : List Nat) (size : Nat) (path : List Nat) :
    encodeHeader name size path = 123 :: encodeMembersTail (headerFields name size path) := by
  simp [encodeHeader, quoteB, encodeMembersTail, headerFields, encodeVal,
    show escapeString [116, 121, 112, 101] = [116, 121, 112, 101] from rfl,
    show escapeString [110, 97, 109, 101] = [110, 97, 109, 101] from rfl,
    show escapeString [115, 105, 122, 101] = [115, 105, 122, 101] from rfl,
    show escapeString [112, 97, 116, 104] = [112, 97, 116, 104] from rfl,
    show escapeString [102, 105, 108, 101, 45, 104, 101, 97, 100, 101, 114] =
      [102, 105, 108, 101, 45, 104, 101, 97, 100, 101, 114] from rfl,
    typeKey, nameKey, sizeKey, pathKey, fileHeaderVal]

theorem classifyData_encodeHeader (name : List Nat) (size : Nat) (path : List Nat)
    (hlen : (encodeHeader name size path).length < 1000) :
    classifyData (encodeHeader name size path) =
      some (CtrlMsg.header (some name) (some (natDigits size))) := by
  have hgood : ∀ kv ∈ headerFields name size path, GoodVal kv.2 := by
    intro kv hkv
    simp only [headerFields, List.mem_cons, List.not_mem_nil, or_false] at hkv
    rcases hkv with h | h | h | h <;> subst h
    · exact Or.inl ⟨_, rfl⟩
    · exact Or.inl ⟨_, rfl⟩
    · exact Or.inr ⟨_, rfl⟩
    · exact Or.inl ⟨_, rfl⟩
  have hobj := parseTopObject_members (headerFields name size path) (by simp [headerFields]) hgood
  unfold classifyData
  rw [encodeHeader_eq] at hlen ⊢
  rw [if_pos ⟨hlen, rfl⟩, hobj]
  simp [headerFields, lookupField, fieldOrElse, typeKey, nameKey, sizeKey, pathKey,
    fileHeaderVal, fileEndVal]

theorem classifyData_encodeEnd : classifyData encodeEnd = some CtrlMsg.endMarker := by decide

/-- The datum `{"type":"file-end","x":[1]}`: an extra member whose value is
a nested array.  `JSON.parse` accepts it and `msg.type` is `"file-end"`,
so the receiver treats it as a control frame; the model agrees. -/
theorem classifyData_nested_array_example :
    classifyData [123, 34, 116, 121, 112, 101, 34, 58, 34, 102, 105, 108, 101, 45, 101,
      110, 100, 34, 44, 34, 120, 34, 58, 91, 49, 93, 125] = some CtrlMsg.endMarker := by
  decide

/-- The datum `{"type":"file-header","name":"x","size":1,"o":{"y":2}}`: an
extra member whose value is a nested object.  `JSON.parse` accepts it and
the receiver opens a file named `"x"`; the model classifies it as the same
header. -/
theorem classifyData_nested_object_example :
    classifyData [123, 34, 116, 121, 112, 101, 34, 58, 34, 102, 105, 108, 101, 45, 104,
      101, 97, 100, 101, 114, 34, 44, 34, 110, 97, 109, 101, 34, 58, 34, 120, 34, 44,
      34, 115, 105, 122, 101, 34, 58, 49, 44, 34, 111, 34, 58, 123, 34, 121, 34, 58,
      50, 125, 125] = some (CtrlMsg.header (some [120]) (some [49])) := by
  decide

/-! ### Properties of the sender's chunking -/

theorem chunksOfGo_nil (k fuel : Nat) : chunksOfGo k fuel [] = [] := by
  cases fuel <;> rfl

theorem chunksOfGo_cons (k fuel : Nat) (c : Nat) (cs : List Nat) :
    chunksOfGo k (fuel + 1) (c :: cs) =
      (c :: cs).take k :: chunksOfGo k fuel ((c :: cs).drop k) := by
  rw [chunksOfGo.eq_def]

theorem chunksOfGo_flatten (k : Nat) (hk : 1 ≤ k) :
    ∀ (fuel : Nat) (l : List Nat), l.length ≤ fuel → (chunksOfGo k fuel l).flatten = l := by
  intro fuel
  induction fuel with
  | zero =>
    intro l hl
    obtain rfl : l = [] := List.length_eq_zero.mp (by omega)
    rfl
  | succ f ih =>
    intro l hl
    cases l with
    | nil => rfl
    | cons c cs =>
      simp only [List.length_cons] at hl
      rw [chunksOfGo_cons, List.flatten_cons,
        ih ((c :: cs).drop k) (by rw [List.length_drop]; simp; omega)]
      exact List.take_append_drop k (c :: cs)

theorem chunksOf_flatten (k : Nat) (hk : 1 ≤ k) (l : List Nat) :
    (chunksOf k l).flatten = l :=
  chunksOfGo_flatten k hk l.length l le_rfl

theorem chunksOfGo_mem (k : Nat) (hk : 1 ≤ k) :
    ∀ (fuel : Nat) (l : List Nat), l.length ≤ fuel →
    ∀ c ∈ chunksOfGo k fuel l, c.length ≤ k ∧ c ≠ [] := by
  intro fuel
  induction fuel with
  | zero =>
    intro l hl c hc
    obtain rfl : l = [] := List.length_eq_zero.mp (by omega)
    simp [chunksOfGo_nil] at hc
  | succ f ih =>
    intro l hl c hc
    cases l with
    | nil => simp [chunksOfGo_nil] at hc
    | cons a cs =>
      simp only [List.length_cons] at hl
      rw [chunksOfGo_cons] at hc
      rcases List.mem_cons.mp hc with rfl | hc
      · constructor
        · simp [List.length_take]
        · have : 0 < ((a :: cs).take k).length := by
            simp [List.length_take]
            omega
          exact fun hnil => by simp [hnil] at this
      · exact ih _ (by rw [List.length_drop]; simp; omega) c hc

theorem chunksOf_mem (k : Nat) (hk : 1 ≤ k) (l : List Nat) :
    ∀ c ∈ chunksOf k l, c.length ≤ k ∧ c ≠ [] :=
  chunksOfGo_mem k hk l.length l le_rfl

theorem chunksOfGo_dropLast (k : Nat) (hk : 1 ≤ k) :
    ∀ (fuel : Nat) (l : List Nat), l.length ≤ fuel →
    ∀ c ∈ (chunksOfGo k fuel l).dropLast, c.length = k := by
  intro fuel
  induction fuel with
  | zero =>
    intro l hl c hc
    obtain rfl : l = [] := List.length_eq_zero.mp (by omega)
    simp [chunksOfGo_nil] at hc
  | succ f ih =>
    intro l hl c hc
    cases l with
    | nil => simp [chunksOfGo_nil] at hc
    | cons a cs =>
      simp only [List.length_cons] at hl
      rw [chunksOfGo_cons] at hc
      cases hd : (a :: cs).drop k with
      | nil =>
        rw [hd, chunksOfGo_nil] at hc
        simp at hc
      | cons d ds =>
        have hlen : k < (a :: cs).length := by
          by_contra hcon
          have : (a :: cs).drop k = [] := by
            apply List.drop_eq_nil_of_le
            omega
          rw [this] at hd
          exact absurd hd (by simp)
        obtain ⟨f2, rfl⟩ : ∃ f2, f = f2 + 1 := by
          refine ⟨f - 1, ?_⟩
          have h2 := List.length_drop k (a :: cs)
          rw [hd] at h2
          simp at h2
          omega
        rw [hd, chunksOfGo_cons] at hc
        rw [List.dropLast_cons₂] at hc
        rcases List.mem_cons.mp hc with rfl | hc
        · simp only [List.length_cons] at hlen
          simp [List.length_take]
          omega
        · have h3 := ih ((a :: cs).drop k) (by rw [List.length_drop]; simp; omega)
          rw [hd, chunksOfGo_cons] at h3
          exact h3 c hc

theorem chunksOf_dropLast (k : Nat) (hk : 1 ≤ k) (l : List Nat) :
    ∀ c ∈ (chunksOf k l).dropLast, c.length = k :=
  chunksOfGo_dropLast k hk l.length l le_rfl

theorem chunksOf_sum (k : Nat) (hk : 1 ≤ k) (l : List Nat) :
    ((chunksOf k l).map List.length).sum = l.length := by
  rw [← List.length_flatten, chunksOf_flatten k hk]

/-! ### Receiver run lemmas -/

theorem runRecvGo_append (uw : Bool) (st : RecvState) (xs ys : List (List Nat)) :
    runRecvGo uw st (xs ++ ys) =
      ((runRecvGo uw (runRecvGo uw st xs).1 ys).1,
       (runRecvGo uw st xs).2 ++ (runRecvGo uw (runRecvGo uw st xs).1 ys).2) := by
  induction xs generalizing st with
  | nil => simp [runRecvGo]
  | cons d rest ih =>
    simp only [List.cons_append, runRecvGo, List.append_eq]
    rw [ih]
    simp [List.append_assoc]

theorem onData_header (uw : Bool) (st : RecvState) (data : List Nat)
    (n s : Option (List Nat)) (h : classifyData data = some (CtrlMsg.header n s)) :
    onData uw st data =
      ({ currentFileMeta := some { name := n, size := s },
         writable := if uw then some [] else st.writable,
         chunks := if uw then st.chunks else [],
         receivedBytes := 0 }, []) := by
  unfold onData
  rw [h]

theorem onData_end_writer (uw : Bool) (st : RecvState) (data : List Nat)
    (m : HdrMeta) (w : List (List Nat)) (h : classifyData data = some CtrlMsg.endMarker)
    (hm : st.currentFileMeta = some m) (hw : st.writable = some w) :
    onData uw st data =
      ({ st with writable := none, currentFileMeta := none },
       [REvent.fileSaved true m.name w.flatten, REvent.toastSuccess m.name]) := by
  unfold onData
  rw [h, hm, hw]

theorem onData_end_blob (uw : Bool) (st : RecvState) (data : List Nat)
    (m : HdrMeta) (h : classifyData data = some CtrlMsg.endMarker)
    (hm : st.currentFileMeta = some m) (hw : st.writable = none) :
    onData uw st data =
      ({ st with chunks := [], currentFileMeta := none },
       [REvent.fileSaved false m.name st.chunks.flatten, REvent.toastSuccess m.name]) := by
  unfold onData
  rw [h, hm, hw]

theorem onData_end_closed (uw : Bool) (st : RecvState) (data : List Nat)
    (h : classifyData data = some CtrlMsg.endMarker)
    (hm : st.currentFileMeta = none) :
    onData uw st data = (st, [REvent.jsError]) := by
  unfold onData
  rw [h, hm]

theorem onData_binary_writer (uw : Bool) (st : RecvState) (data : List Nat)
    (m : HdrMeta) (w : List (List Nat)) (h : classifyData data = none)
    (hm : st.currentFileMeta = some m) (hw : st.writable = some w) :
    onData uw st data =
      ({ st with writable := some (w ++ [data]),
                 receivedBytes := st.receivedBytes + data.length }, []) := by
  unfold onData
  rw [h, hm, hw]

theorem onData_binary_blob (uw : Bool) (st : RecvState) (data : List Nat)
    (m : HdrMeta) (h : classifyData data = none)
    (hm : st.currentFileMeta = some m) (hw : st.writable = none) :
    onData uw st data =
      ({ st with chunks := st.chunks ++ [data],
                 receivedBytes := st.receivedBytes + data.length }, []) := by
  unfold onData
  rw [h, hm, hw]

theorem onData_binary_closed (uw : Bool) (st : RecvState) (data : List Nat)
    (h : classifyData data = none) (hm : st.currentFileMeta = none) :
    onData uw st data = (st, []) := by
  unfold onData
  rw [h, hm]

theorem runRecv_chunks_writer (uw : Bool) :
    ∀ (cs : List (List Nat)) (st : RecvState) (m : HdrMeta) (w : List (List Nat)),
    (∀ c ∈ cs, classifyData c = none) →
    st.currentFileMeta = some m → st.writable = some w →
    runRecvGo uw st cs =
      ({ st with writable := some (w ++ cs),
                 receivedBytes := st.receivedBytes + (cs.map List.length).sum }, []) := by
  intro cs
  induction cs with
  | nil =>
    intro st m w _ _ hw
    simp [runRecvGo, ← hw]
  | cons c cs ih =>
    intro st m w hcs hm hw
    simp only [runRecvGo]
    rw [onData_binary_writer uw st c m w (hcs c (by simp)) hm hw]
    rw [ih _ m (w ++ [c]) (fun x hx => hcs x (by simp [hx])) (by simp [hm]) (by simp)]
    simp [List.append_assoc]
    omega

theorem runRecv_chunks_blob (uw : Bool) :
    ∀ (cs : List (List Nat)) (st : RecvState) (m : HdrMeta),
    (∀ c ∈ cs, classifyData c = none) →
    st.currentFileMeta = some m → st.writable = none →
    runRecvGo uw st cs =
      ({ st with chunks := st.chunks ++ cs,
                 receivedBytes := st.receivedBytes + (cs.map List.length).sum }, []) := by
  intro cs
  induction cs with
  | nil =>
    intro st m _ _ hw
    simp [runRecvGo]
  | cons c cs ih =>
    intro st m hcs hm hw
    simp only [runRecvGo]
    rw [onData_binary_blob uw st c m (hcs c (by simp)) hm hw]
    rw [ih _ m (fun x hx => hcs x (by simp [hx])) (by simp [hm]) (by simp [hw])]
    simp [List.append_assoc]
    omega

theorem runFile (uw : Bool) (st : RecvState) (f : FileData) (hgood : goodFile f)
    (hm : st.currentFileMeta = none) (hwb : uw = false → st.writable = none) :
    runRecvGo uw st (wireOfFile f) =
      ({ currentFileMeta := none, writable := none,
         chunks := if uw then st.chunks else [],
         receivedBytes := f.content.length },
       [REvent.fileSaved uw (some f.name) f.content,
        REvent.toastSuccess (some f.name)]) := by
  obtain ⟨hlen, hchunks⟩ := hgood
  have hck : (1 : Nat) ≤ CHUNK_SIZE := by decide
  unfold wireOfFile
  simp only [runRecvGo]
  rw [onData_header uw st _ _ _ (classifyData_encodeHeader f.name f.content.length f.path hlen)]
  rw [runRecvGo_append]
  cases uw with
  | true =>
    rw [runRecv_chunks_writer true _ _ ⟨some f.name, some (natDigits f.content.length)⟩ []
      hchunks rfl (by simp)]
    simp only [runRecvGo]
    rw [onData_end_writer true _ encodeEnd ⟨some f.name, some (natDigits f.content.length)⟩
      (chunksOf CHUNK_SIZE f.content) classifyData_encodeEnd (by simp) (by simp)]
    simp [chunksOf_flatten CHUNK_SIZE hck, chunksOf_sum CHUNK_SIZE hck]
  | false =>
    have hw0 : st.writable = none := hwb rfl
    rw [runRecv_chunks_blob false _ _ ⟨some f.name, some (natDigits f.content.length)⟩
      hchunks rfl (by simp [hw0])]
    simp only [runRecvGo]
    rw [onData_end_blob false _ encodeEnd ⟨some f.name, some (natDigits f.content.length)⟩
      classifyData_encodeEnd (by simp) (by simp [hw0])]
    simp [chunksOf_flatten CHUNK_SIZE hck, chunksOf_sum CHUNK_SIZE hck, hw0]

theorem sendFilesWire_nil : sendFilesWire [] = [] := rfl

theorem sendFilesWire_cons (f : FileData) (fs : List FileData) :
    sendFilesWire (f :: fs) = wireOfFile f ++ sendFilesWire fs := by
  simp only [sendFilesWire, sendFilesFrames, List.flatMap_cons, List.map_append]
  unfold wireOfFile sendFileFrames
  have hid : (encodeFrame ∘ Frame.chunk) = id := funext fun x => rfl
  simp [encodeFrame, List.map_map, hid]

theorem runFiles (files : List FileData) :
    ∀ (uw : Bool) (st : RecvState), (∀ f ∈ files, goodFile f) →
    st.currentFileMeta = none → (uw = false → st.writable = none) →
    (runRecvGo uw st (sendFilesWire files)).2 =
      files.flatMap (fun f => [REvent.fileSaved uw (some f.name) f.content,
                               REvent.toastSuccess (some f.name)]) ∧
    (runRecvGo uw st (sendFilesWire files)).1.currentFileMeta = none ∧
    (uw = false → (runRecvGo uw st (sendFilesWire files)).1.writable = none) := by
  induction files with
  | nil =>
    intro uw st _ hm hwb
    simp only [sendFilesWire_nil, runRecvGo]
    exact ⟨rfl, hm, hwb⟩
  | cons f fs ih =>
    intro uw st hgood hm hwb
    rw [sendFilesWire_cons, runRecvGo_append,
      runFile uw st f (hgood f (by simp)) hm hwb]
    have hih := ih uw
      { currentFileMeta := none, writable := none,
        chunks := if uw then st.chunks else [],
        receivedBytes := f.content.length }
      (fun g hg => hgood g (by simp [hg])) rfl (fun _ => rfl)
    simp only [List.flatMap_cons]
    refine ⟨?_, hih.2.1, hih.2.2⟩
    rw [hih.1]

theorem savedFiles_pairs (uw : Bool) (files : List FileData) :
    savedFiles (files.flatMap fun f =>
      [REvent.fileSaved uw (some f.name) f.content,
       REvent.toastSuccess (some f.name)]) =
    files.map fun f => (some f.name, f.content) := by
  induction files with
  | nil => rfl
  | cons f fs ih =>
    simp only [List.flatMap_cons, savedFiles, List.filterMap_append, List.filterMap_cons]
    simp only [savedFiles] at ih
    rw [ih]
    rfl

/-! ### Claims -/

/-- C1, counterexample to the claim as stated.  The claim says that for
every list of files, feeding the sender's frames to the receiver
reconstructs byte-identical content.  It fails for a file whose content is
exactly the bytes of `{"type":"file-end"}`: the single content chunk is
shorter than 1000 bytes, starts with a brace and parses as a control
frame, so the receiver closes the file early and materializes 0 bytes
(and then throws on the real end marker). -/
theorem C1_roundtrip_counterexample :
    savedFiles (runReceiver false (sendFilesWire
      [{ name := [97], content := encodeEnd, path := [97] }])).2 ≠
    [(some [97], encodeEnd)] := by decide

/-- C1 (amended): for every list of files in which each header frame stays
under the 1000-byte control threshold and no content chunk is itself
classified as a control frame, feeding the exact frame sequence produced
by `sendFiles` into the receiver's data handler reconstructs files with
byte-identical content, the same names, and the same relative order as the
originals (in both sink modes), leaving no file open. -/
theorem C1_roundtrip_amended (uw : Bool) (files : List FileData)
    (hgood : ∀ f ∈ files, goodFile f) :
    savedFiles (runReceiver uw (sendFilesWire files)).2 =
      files.map (fun f => (some f.name, f.content)) ∧
    (runReceiver uw (sendFilesWire files)).1.currentFileMeta = none := by
  have h := runFiles files uw initRecvState hgood rfl (fun _ => rfl)
  refine ⟨?_, h.2.1⟩
  show savedFiles (runRecvGo uw initRecvState (sendFilesWire files)).2 = _
  rw [h.1, savedFiles_pairs]

/-- Witness for C1 (amended) at a concrete three-byte file. -/
theorem C1_roundtrip_witness :
    savedFiles (runReceiver false (sendFilesWire
      [{ name := [97], content := [1, 2, 3], path := [97] }])).2 =
      [(some [97], [1, 2, 3])] := by
  have h := C1_roundtrip_amended false
    [{ name := [97], content := [1, 2, 3], path := [97] }] (by decide)
  rw [h.1]
  rfl

/-- C2: for every list of files, `sendFiles` emits, for each file in list
order and before starting the next file, exactly one header frame, then
the file's content sliced into `CHUNK_SIZE` chunks (only the final chunk
possibly shorter) each emitted as a data chunk, then exactly one end
marker; the chunk payload lengths between a header and its end marker sum
to the size declared in the header. -/
theorem C2_sender_framing (files : List FileData) :
    FramingOk files (sendFilesFrames files) := by
  induction files with
  | nil => exact FramingOk.nil
  | cons f fs ih =>
    have hck : (1 : Nat) ≤ CHUNK_SIZE := by decide
    have hshape : sendFilesFrames (f :: fs) =
        Frame.header f.name f.content.length f.path ::
          ((chunksOf CHUNK_SIZE f.content).map Frame.chunk ++
            (Frame.endMarker :: sendFilesFrames fs)) := by
      simp [sendFilesFrames, sendFileFrames]
    rw [hshape]
    exact FramingOk.file f fs _ _ (chunksOf_flatten CHUNK_SIZE hck f.content)
      (chunksOf_sum CHUNK_SIZE hck f.content)
      (chunksOf_dropLast CHUNK_SIZE hck f.content)
      (chunksOf_mem CHUNK_SIZE hck f.content) ih

/-- C10: every data frame that is not classified as a control frame and
arrives while no file is open (no header received, or the previous file's
end marker already closed it) is discarded: nothing is written to any
sink, no chunk is accumulated, the received-byte counter is unchanged (the
whole closure state is untouched), and no event is produced. -/
theorem C10_binary_discarded_when_closed (uw : Bool) (st : RecvState) (data : List Nat)
    (hc : classifyData data = none) (hm : st.currentFileMeta = none) :
    onData uw st data = (st, []) :=
  onData_binary_closed uw st data hc hm

/-- Witness for C10 at a concrete binary frame in the initial state. -/
theorem C10_binary_discarded_witness :
    onData false initRecvState [5, 6] = (initRecvState, []) :=
  C10_binary_discarded_when_closed false initRecvState [5, 6] (by decide) rfl

/-- C5, counterexample to the claim as stated.  The claim says the
receiver verifies the received byte count against the size declared in the
header and reports a mismatch.  Feeding a header that declares 5 bytes,
a single 3-byte chunk, and the end marker produces no error event of any
kind — the 3-byte file is materialized and a success toast fires, exactly
as for a matching transfer. -/
theorem C5_verification_counterexample :
    REvent.toastError ∉ (runReceiver false
      [encodeHeader [97] 5 [97], [1, 2, 3], encodeEnd]).2 ∧
    REvent.jsError ∉ (runReceiver false
      [encodeHeader [97] 5 [97], [1, 2, 3], encodeEnd]).2 ∧
    savedFiles (runReceiver false
      [encodeHeader [97] 5 [97], [1, 2, 3], encodeEnd]).2 =
      [(some [97], [1, 2, 3])] := by
  decide

/-- C5 (amended): on every end-marker frame received while a file is open,
the receiver closes/flushes the active sink (writer or chunk accumulator),
materializes the file from whatever bytes arrived, emits a success toast,
and clears the per-file state so later frames are processed from a clean
state; it performs no comparison of the received byte count against the
declared size and emits no mismatch report of any kind, whether or not the
counts agree. -/
theorem C5_end_marker_amended (uw : Bool) (st : RecvState) (data : List Nat) (m : HdrMeta)
    (hc : classifyData data = some CtrlMsg.endMarker)
    (hm : st.currentFileMeta = some m) :
    (onData uw st data).2 =
      [REvent.fileSaved st.writable.isSome m.name ((st.writable.getD st.chunks).flatten),
       REvent.toastSuccess m.name] ∧
    (onData uw st data).1.currentFileMeta = none ∧
    (onData uw st data).1.writable = none ∧
    REvent.toastError ∉ (onData uw st data).2 ∧
    REvent.jsError ∉ (onData uw st data).2 := by
  cases hw : st.writable with
  | some w =>
    rw [onData_end_writer uw st data m w hc hm hw]
    simp [hw]
  | none =>
    rw [onData_end_blob uw st data m hc hm hw]
    simp [hw]

/-- Witness for C5 (amended) at a concrete state with an open 2-byte file. -/
theorem C5_end_marker_witness :
    (onData false
      { currentFileMeta := some { name := some [97], size := some [53] },
        writable := none, chunks := [[1, 2]], receivedBytes := 2 } encodeEnd).2 =
      [REvent.fileSaved false (some [97]) [1, 2], REvent.toastSuccess (some [97])] := by
  have h := C5_end_marker_amended false
    { currentFileMeta := some { name := some [97], size := some [53] },
      writable := none, chunks := [[1, 2]], receivedBytes := 2 } encodeEnd
    { name := some [97], size := some [53] } (by decide) rfl
  rw [h.1]
  rfl

/-- C6, evaluation at the failing input.  A header for file `b` arriving
while file `a` is still open (its end marker not yet received) silently
replaces the in-flight state: the previously accumulated chunk is
discarded, the meta is overwritten with file `b`'s, the byte counter is
reset, and no rejection, log event, or error of any kind is produced — the
receiver does not treat the overlapping header as a protocol violation. -/
theorem C6_overlapping_header_overwrites :
    (runReceiver false
      [encodeHeader [97] 3 [97], [1, 2, 3], encodeHeader [98] 1 [98]]).1 =
      { currentFileMeta := some { name := some [98], size := some [49] },
        writable := none, chunks := [], receivedBytes := 0 } ∧
    (runReceiver false
      [encodeHeader [97] 3 [97], [1, 2, 3], encodeHeader [98] 1 [98]]).2 = [] := by
  decide

theorem filter_ne_self_length (selfId : String) :
    ∀ (users : List Peer), (users.map Peer.id).Nodup → (∃ p ∈ users, p.id = selfId) →
    (users.filter fun u => u.id ≠ selfId).length = users.length - 1 := by
  intro users
  induction users with
  | nil =>
    rintro _ ⟨p, hp, _⟩
    simp at hp
  | cons p rest ih =>
    rintro hnd ⟨q, hq, hqid⟩
    simp only [List.map_cons, List.nodup_cons] at hnd
    obtain ⟨hp, hndr⟩ := hnd
    by_cases hid : p.id = selfId
    · have hrest : rest.filter (fun u => u.id ≠ selfId) = rest := by
        apply List.filter_eq_self.mpr
        intro x hx
        simp only [ne_eq, decide_eq_true_eq]
        intro hxid
        exact hp (by rw [hid, ← hxid]; exact List.mem_map_of_mem Peer.id hx)
      rw [List.filter_cons,
        if_neg (by simp [hid] : ¬ ((fun u => decide (u.id ≠ selfId)) p = true)), hrest]
      simp
    · rcases List.mem_cons.mp hq with rfl | hq2
      · exact absurd hqid hid
      · have h1 : 0 < rest.length := List.length_pos.mpr (by rintro rfl; simp at hq2)
        rw [List.filter_cons,
          if_pos (by simp [hid] : ((fun u => decide (u.id ≠ selfId)) p = true)),
          List.length_cons, ih hndr ⟨q, hq2, hqid⟩, List.length_cons]
        omega

/-- C3, counterexample to the claim as stated.  The claim says each
broadcast sends every peer the peer list excluding that peer itself; in
fact `broadcastUsers` emits `Array.from(users.values())` — the full
registry — to every socket in the lobby, so a registered peer receives a
list containing its own entry. -/
theorem C3_broadcast_counterexample :
    ¬ (∀ (users : List Peer), ∀ p ∈ users, ∀ q ∈ broadcastPayload users, q.id ≠ p.id) := by
  intro h
  exact h [{ id := "a", name := "A" }, { id := "b", name := "B" }]
    { id := "a", name := "A" } (by simp)
    { id := "a", name := "A" } (by simp [broadcastPayload]) rfl

/-- C3 (amended): the server broadcast sends every lobby socket the full
current registry, including the recipient's own entry; each client's
`users` handler then filters out its own id, so for a registry of distinct
ids containing the client, the peer list a client ends up displaying is
the registry minus itself in registry order — exactly N − 1 entries and
never an entry with its own id. -/
theorem C3_broadcast_amended (users : List Peer) (selfId : String)
    (hnd : (users.map Peer.id).Nodup) (hmem : ∃ p ∈ users, p.id = selfId) :
    usersHandler selfId (broadcastPayload users) =
      users.filter (fun u => u.id ≠ selfId) ∧
    (usersHandler selfId (broadcastPayload users)).length = users.length - 1 ∧
    ∀ q ∈ usersHandler selfId (broadcastPayload users), q.id ≠ selfId := by
  refine ⟨rfl, filter_ne_self_length selfId users hnd hmem, ?_⟩
  intro q hq
  unfold usersHandler broadcastPayload at hq
  exact of_decide_eq_true (List.mem_filter.mp hq).2

/-- Witness for C3 (amended) at a concrete two-peer registry. -/
theorem C3_broadcast_witness :
    usersHandler "a" (broadcastPayload
      [{ id := "a", name := "A" }, { id := "b", name := "B" }]) =
      [{ id := "b", name := "B" }] ∧
    (usersHandler "a" (broadcastPayload
      [{ id := "a", name := "A" }, { id := "b", name := "B" }])).length = 1 := by
  have h := C3_broadcast_amended
    [{ id := "a", name := "A" }, { id := "b", name := "B" }] "a"
    (by decide) ⟨{ id := "a", name := "A" }, by simp, rfl⟩
  exact ⟨h.1.trans (by decide), h.2.1⟩

theorem Reachable_users_connected (s : ServerState) (hs : Reachable s) :
    ∀ p ∈ s.users, p.id ∈ s.connected := by
  induction hs with
  | init => intro p hp; simp at hp
  | conn s sid hsr ih =>
    intro p hp
    simp only [onConnection] at hp ⊢
    exact List.mem_append_left _ (ih p hp)
  | join s sid nm hsr hmem ih =>
    intro p hp
    simp only [onJoin, mapSet] at hp ⊢
    by_cases hex : s.users.any fun q => q.id = sid
    · rw [if_pos hex] at hp
      obtain ⟨q, hq, hqe⟩ := List.mem_map.mp hp
      by_cases hqid : q.id = sid
      · rw [if_pos hqid] at hqe
        rw [← hqe]
        exact hmem
      · rw [if_neg hqid] at hqe
        rw [← hqe]
        exact ih q hq
    · rw [if_neg hex] at hp
      rcases List.mem_append.mp hp with hp2 | hp2
      · exact ih p hp2
      · simp at hp2
        rw [hp2]
        exact hmem
  | disc s sid hsr ih =>
    intro p hp
    simp only [onDisconnect] at hp ⊢
    have h1 := List.of_mem_filter hp
    have h2 := List.mem_of_mem_filter hp
    simp only [ne_eq, decide_eq_true_eq] at h1
    exact List.mem_filter.mpr ⟨ih p h2, by simpa using h1⟩

/-- C4, counterexample to the claim as stated.  The relays forward via
`io.to(id)`, which delivers to the socket with that id whether or not it
ever joined the registry: a connected socket that never sent `join` is
absent from the registry yet still receives the relayed payload, so
"destination id not currently registered implies the message is dropped"
is false. -/
theorem C4_relay_counterexample :
    relaySignal { connected := ["s1", "s2"], users := [{ id := "s1", name := "A" }] }
      "s1" "s2" [7] = [("s2", ([7], "s1"))] ∧
    ∀ p ∈ ({ connected := ["s1", "s2"],
             users := [{ id := "s1", name := "A" }] } : ServerState).users,
      p.id ≠ "s2" := by
  decide

/-- C4 (amended): relay delivery is determined by socket connection, not
registry membership.  In every reachable server state every registered
peer's socket is connected, so a relayed `signal` or `batch-request` whose
destination id is registered is forwarded — the opaque fields verbatim,
the request enriched with the sender's display name — to exactly that
destination; a destination with no connected socket (hence in particular
any disconnected, unregistered id) receives nothing and the message is
dropped silently; in no case does the relay send anything back to the
sender. -/
theorem C4_relay_amended (s : ServerState) (hs : Reachable s)
    (fromId toId : String) (sig : List Nat)
    (fileCount : Nat) (totalSize : String) (totalBytes : Nat) :
    ((∃ p ∈ s.users, p.id = toId) →
      relaySignal s fromId toId sig = [(toId, (sig, fromId))] ∧
      relayBatchRequest s fromId toId fileCount totalSize totalBytes =
        [(toId, { fromId := fromId,
                  fromName := (lookupName s.users fromId).getD "Unknown",
                  fileCount := fileCount, totalSize := totalSize,
                  totalBytes := totalBytes })]) ∧
    (toId ∉ s.connected →
      relaySignal s fromId toId sig = [] ∧
      relayBatchRequest s fromId toId fileCount totalSize totalBytes = []) ∧
    (∀ d ∈ relaySignal s fromId toId sig, d.1 = toId) ∧
    (∀ d ∈ relayBatchRequest s fromId toId fileCount totalSize totalBytes, d.1 = toId) := by
  have hsub := Reachable_users_connected s hs
  refine ⟨?_, ?_, ?_, ?_⟩
  · rintro ⟨p, hp, rfl⟩
    have hc := hsub p hp
    exact ⟨by simp [relaySignal, hc], by simp [relayBatchRequest, hc]⟩
  · intro hnc
    exact ⟨by simp [relaySignal, hnc], by simp [relayBatchRequest, hnc]⟩
  · intro d hd
    unfold relaySignal at hd
    by_cases hc : toId ∈ s.connected
    · simp [hc] at hd
      simp [hd]
    · simp [hc] at hd
  · intro d hd
    unfold relayBatchRequest at hd
    by_cases hc : toId ∈ s.connected
    · simp [hc] at hd
      simp [hd]
    · simp [hc] at hd

/-- Witness for C4 (amended): in the reachable state where socket `s1`
joined as `A`, a signal relayed to the registered id `s1` is delivered to
it verbatim. -/
theorem C4_relay_witness :
    relaySignal { connected := ["s1"], users := [{ id := "s1", name := "A" }] }
      "s2" "s1" [7] = [("s1", ([7], "s2"))] := by
  have hr : Reachable { connected := ["s1"], users := [{ id := "s1", name := "A" }] } :=
    Reachable.join _ "s1" "A" (Reachable.conn _ "s1" Reachable.init) (by decide)
  exact ((C4_relay_amended _ hr "s2" "s1" [7] 0 "" 0).1
    ⟨{ id := "s1", name := "A" }, by decide, rfl⟩).1

theorem waitBelow_lt (drain : Nat → Nat) :
    ∀ (fuel tick buf b t : Nat),
    waitBelow drain fuel tick buf = some (b, t) → b < BUFFER_THRESHOLD := by
  intro fuel
  induction fuel with
  | zero =>
    intro tick buf b t h
    simp [waitBelow] at h
  | succ f ih =>
    intro tick buf b t h
    rw [waitBelow.eq_def] at h
    by_cases hb : buf < BUFFER_THRESHOLD
    · simp only [if_pos hb, Option.some.injEq, Prod.mk.injEq] at h
      omega
    · simp only [if_neg hb] at h
      exact ih _ _ _ _ h

theorem sendChunksBP_cons (drain : Nat → Nat) (fuel : Nat) (c : List Nat)
    (cs : List (List Nat)) (buf tick : Nat) :
    sendChunksBP drain fuel (c :: cs) buf tick =
      sendChunkStep drain fuel c (sendChunksBP drain fuel cs) buf tick := by
  rw [sendChunksBP.eq_def]

theorem sendChunksBP_bounds (drain : Nat → Nat) (fuel : Nat) :
    ∀ (cs : List (List Nat)) (buf tick : Nat) (steps : List SendStep) (bufF tickF : Nat),
    (∀ c ∈ cs, c.length ≤ CHUNK_SIZE) →
    sendChunksBP drain fuel cs buf tick = some (steps, bufF, tickF) →
    ∀ st ∈ steps, st.bufAtEnqueue ≤ BUFFER_THRESHOLD ∧
      st.bufAfterEnqueue = st.bufAtEnqueue + st.chunkLen ∧
      st.chunkLen ≤ CHUNK_SIZE := by
  intro cs
  induction cs with
  | nil =>
    intro buf tick steps bufF tickF _ h st hst
    simp only [sendChunksBP, Option.some.injEq, Prod.mk.injEq] at h
    rw [← h.1] at hst
    simp at hst
  | cons c cs ih =>
    intro buf tick steps bufF tickF hlen h st hst
    rw [sendChunksBP_cons] at h
    unfold sendChunkStep at h
    cases hw : (if BUFFER_THRESHOLD < buf then waitBelow drain fuel tick buf
        else some (buf, tick)) with
    | none => rw [hw] at h; simp at h
    | some pr =>
      obtain ⟨buf1, tick1⟩ := pr
      rw [hw] at h
      simp only at h
      have hb1 : buf1 ≤ BUFFER_THRESHOLD := by
        by_cases hb : BUFFER_THRESHOLD < buf
        · rw [if_pos hb] at hw
          exact le_of_lt (waitBelow_lt drain fuel tick buf buf1 tick1 hw)
        · rw [if_neg hb] at hw
          simp only [Option.some.injEq, Prod.mk.injEq] at hw
          omega
      cases hrec : sendChunksBP drain fuel cs (buf1 + c.length - drain tick1) (tick1 + 1) with
      | none => rw [hrec] at h; simp at h
      | some tr =>
        obtain ⟨steps2, buf2, tick2⟩ := tr
        rw [hrec] at h
        simp only [Option.some.injEq, Prod.mk.injEq] at h
        rw [← h.1] at hst
        rcases List.mem_cons.mp hst with rfl | hst2
        · exact ⟨hb1, rfl, hlen c (by simp)⟩
        · exact ih _ _ steps2 buf2 tick2 (fun x hx => hlen x (by simp [hx])) hrec st hst2

/-- C7: during sending, before each chunk is enqueued the transport's
buffered amount is checked against the high-water mark
`BUFFER_THRESHOLD`; in every terminating run of the chunk loop over a
file's content, each chunk is enqueued only with the buffered amount at or
below the mark (when it exceeded the mark the loop polled until it dropped
below), so right after any enqueue the buffered amount exceeds the mark by
at most one chunk (`CHUNK_SIZE` bytes): overshoot is bounded to one
in-flight chunk. -/
theorem C7_backpressure_bound (drain : Nat → Nat) (fuel : Nat) (content : List Nat)
    (buf0 tick0 : Nat) (steps : List SendStep) (bufF tickF : Nat)
    (hrun : sendChunksBP drain fuel (chunksOf CHUNK_SIZE content) buf0 tick0 =
      some (steps, bufF, tickF)) :
    ∀ st ∈ steps, st.bufAtEnqueue ≤ BUFFER_THRESHOLD ∧
      st.bufAfterEnqueue ≤ BUFFER_THRESHOLD + CHUNK_SIZE := by
  have hck : (1 : Nat) ≤ CHUNK_SIZE := by decide
  intro st hst
  have h := sendChunksBP_bounds drain fuel (chunksOf CHUNK_SIZE content) buf0 tick0
    steps bufF tickF
    (fun c hc => (chunksOf_mem CHUNK_SIZE hck content c hc).1) hrun st hst
  refine ⟨h.1, ?_⟩
  rw [h.2.1]
  omega

/-- Witness for C7: a concrete run over one 2-byte chunk with no drain. -/
theorem C7_backpressure_witness :
    ({ bufAtEnqueue := 0, chunkLen := 2, bufAfterEnqueue := 2 } : SendStep).bufAtEnqueue ≤
      BUFFER_THRESHOLD ∧
    ({ bufAtEnqueue := 0, chunkLen := 2, bufAfterEnqueue := 2 } : SendStep).bufAfterEnqueue ≤
      BUFFER_THRESHOLD + CHUNK_SIZE :=
  C7_backpressure_bound (fun _ => 0) 1 [1, 2] 0 0
    [{ bufAtEnqueue := 0, chunkLen := 2, bufAfterEnqueue := 2 }] 2 1 (by decide)
    { bufAtEnqueue := 0, chunkLen := 2, bufAfterEnqueue := 2 } (by decide)

theorem sendFilesE_length (oracle : Nat → Option Nat) :
    ∀ (files : List FileData) (i : Nat), (sendFilesE oracle i files).length = files.length := by
  intro files
  induction files with
  | nil => intro i; rfl
  | cons f fs ih =>
    intro i
    simp only [sendFilesE, List.length_cons, ih]

theorem sendFilesE_getElem (oracle : Nat → Option Nat) :
    ∀ (files : List FileData) (i j : Nat),
    (sendFilesE oracle i files)[j]? = (files[j]?).map fun f =>
      { frames := (sendFileFramesE (oracle (i + j)) f).1,
        errored := (sendFileFramesE (oracle (i + j)) f).2 } := by
  intro files
  induction files with
  | nil => intro i j; simp [sendFilesE]
  | cons f fs ih =>
    intro i j
    cases j with
    | zero => simp [sendFilesE]
    | succ j2 =>
      simp only [sendFilesE, List.getElem?_cons_succ]
      rw [ih (i + 1) j2, show i + 1 + j2 = i + (j2 + 1) from by omega]

/-- C8: every file in the list gets exactly one outcome record (the
per-file `try`/`catch` always advances the loop), and the frames emitted
for file `j` depend only on the error oracle's behaviour at file `j`
itself — a transport error on any other file, earlier or later, never
changes file `j`'s outcome, and a file on which no error occurs emits its
complete frame sequence.  An error on file N therefore aborts only file N
and never files N+1..K. -/
theorem C8_per_file_isolation (o1 o2 : Nat → Option Nat) (files : List FileData)
    (j : Nat) (hj : j < files.length) (ho : o1 j = o2 j) :
    (sendFilesE o1 0 files).length = files.length ∧
    (sendFilesE o1 0 files)[j]? = (sendFilesE o2 0 files)[j]? ∧
    (o1 j = none →
      (sendFilesE o1 0 files)[j]? =
        (files[j]?).map fun f => { frames := sendFileFrames f, errored := false }) := by
  refine ⟨sendFilesE_length o1 files 0, ?_, ?_⟩
  · rw [sendFilesE_getElem o1 files 0 j, sendFilesE_getElem o2 files 0 j]
    simp only [Nat.zero_add, ho]
  · intro hnone
    rw [sendFilesE_getElem o1 files 0 j]
    simp only [Nat.zero_add, hnone]
    cases hg : files[j]? <;> simp [sendFileFramesE]

/-- Witness for C8: an error at frame 1 of file 0 leaves file 1's outcome
identical to an error-free run. -/
theorem C8_per_file_isolation_witness :
    (sendFilesE (fun n => if n = 0 then some 1 else none) 0
      [{ name := [97], content := [1], path := [97] },
       { name := [98], content := [2], path := [98] }]).length = 2 ∧
    (sendFilesE (fun n => if n = 0 then some 1 else none) 0
      [{ name := [97], content := [1], path := [97] },
       { name := [98], content := [2], path := [98] }])[1]? =
    (sendFilesE (fun _ => none) 0
      [{ name := [97], content := [1], path := [97] },
       { name := [98], content := [2], path := [98] }])[1]? := by
  have h := C8_per_file_isolation (fun n => if n = 0 then some 1 else none) (fun _ => none)
    [{ name := [97], content := [1], path := [97] },
     { name := [98], content := [2], path := [98] }] 1 (by decide) rfl
  exact ⟨h.1, h.2.1⟩

theorem timeDiffQ_eq_zero_iff (now : ℤ) (refs : RefsState) :
    timeDiffQ now refs = 0 ↔ now = refs.lastTime := by
  unfold timeDiffQ
  constructor
  · intro h
    rcases div_eq_zero_iff.mp h with h1 | h1
    · have h2 : now - refs.lastTime = 0 := by exact_mod_cast h1
      omega
    · norm_num at h1
  · intro h
    rw [h]
    simp

theorem timeDiffQ_ge_one_iff (now : ℤ) (refs : RefsState) :
    1 ≤ timeDiffQ now refs ↔ 1000 ≤ now - refs.lastTime := by
  unfold timeDiffQ
  rw [le_div_iff (by norm_num : (0 : ℚ) < 1000)]
  norm_num
  exact_mod_cast Iff.rfl

theorem timeDiffQ_pos_iff (now : ℤ) (refs : RefsState) :
    0 < timeDiffQ now refs ↔ 0 < now - refs.lastTime := by
  unfold timeDiffQ
  rw [lt_div_iff (by norm_num : (0 : ℚ) < 1000)]
  norm_num

/-- C9, counterexample to the claim as stated.  The claim says ETA is
reported as undefined/unknown when the computed rate is zero.  With a
sample two seconds after the last one and no byte progress the rate is 0,
yet the code sets `etaSeconds` to 0 and displays `formatTime(0)` — the
string `0m 0s`, not the unknown marker `--:--`. -/
theorem C9_eta_zero_rate_counterexample :
    (updateStats 2000 { lastTime := 0, lastBytes := 100 } initStatsView
      200 100 "f" 1 0).2.speed = 0 ∧
    (updateStats 2000 { lastTime := 0, lastBytes := 100 } initStatsView
      200 100 "f" 1 0).2.eta = Eta.mmss 0 0 ∧
    (updateStats 2000 { lastTime := 0, lastBytes := 100 } initStatsView
      200 100 "f" 1 0).2.eta ≠ Eta.unknown := by
  have htd : timeDiffQ 2000 { lastTime := 0, lastBytes := 100 } = 2 := by
    unfold timeDiffQ
    norm_num
  have hsp : statsSpeed 2000 { lastTime := 0, lastBytes := 100 } 100 = 0 := by
    unfold statsSpeed
    rw [htd]
    norm_num
  have het : statsEta 2000 { lastTime := 0, lastBytes := 100 } 200 100 = 0 := by
    unfold statsEta
    rw [hsp]
    norm_num
  unfold updateStats
  rw [htd, hsp, het]
  norm_num [formatTime]
  decide

/-- C9 (amended): on each `updateStats` call with elapsed time
`now − lastTime` (milliseconds): (a) if the elapsed time is zero the
sample is dropped entirely — refs and view unchanged; (b) on a qualifying
sample (elapsed ≥ 1000 ms, or transfer complete, with positive elapsed
time) the rate is computed exactly as byte delta over elapsed seconds and
the last-sample refs move to the current sample, ETA is derived as
remaining bytes over rate when the rate is positive, and when the rate is
not positive ETA displays `0m 0s` — never the unknown marker; (c) at
completion ETA likewise displays `0m 0s`; (d) between qualifying samples
only the cosmetic fields (processed counts, current file name) update —
rate, ETA and the refs are not recomputed. -/
theorem C9_updateStats_amended (now : ℤ) (refs : RefsState) (prev : StatsView)
    (tB pB : ℤ) (cf : String) (tF pF : Nat) :
    (now = refs.lastTime →
      updateStats now refs prev tB pB cf tF pF = (refs, prev)) ∧
    ((0 < now - refs.lastTime ∧ (1000 ≤ now - refs.lastTime ∨ pB = tB)) →
      (updateStats now refs prev tB pB cf tF pF).1 =
        { lastTime := now, lastBytes := pB } ∧
      (updateStats now refs prev tB pB cf tF pF).2.speed =
        ((pB - refs.lastBytes : ℤ) : ℚ) / (((now - refs.lastTime : ℤ) : ℚ) / 1000) ∧
      (0 < (updateStats now refs prev tB pB cf tF pF).2.speed →
        (updateStats now refs prev tB pB cf tF pF).2.eta =
          formatTime (((tB - pB : ℤ) : ℚ) /
            (updateStats now refs prev tB pB cf tF pF).2.speed)) ∧
      (¬ 0 < (updateStats now refs prev tB pB cf tF pF).2.speed →
        (updateStats now refs prev tB pB cf tF pF).2.eta = Eta.mmss 0 0)) ∧
    ((0 < now - refs.lastTime ∧ pB = tB) →
      (updateStats now refs prev tB pB cf tF pF).2.eta = Eta.mmss 0 0) ∧
    ((now ≠ refs.lastTime ∧ ¬ 1000 ≤ now - refs.lastTime ∧ pB ≠ tB) →
      updateStats now refs prev tB pB cf tF pF =
        (refs, { prev with processedFiles := pF, processedBytes := pB,
                           currentFile := cf })) := by
  have hq0 := timeDiffQ_eq_zero_iff now refs
  have hq1 := timeDiffQ_ge_one_iff now refs
  have hqp := timeDiffQ_pos_iff now refs
  refine ⟨?_, ?_, ?_, ?_⟩
  · intro h
    unfold updateStats
    rw [if_pos (hq0.mpr h)]
  · rintro ⟨hpos, hqual⟩
    have htd0 : ¬ timeDiffQ now refs = 0 := by
      intro h0
      have := hq0.mp h0
      omega
    have htdp : 0 < timeDiffQ now refs := hqp.mpr hpos
    have hqual2 : 1 ≤ timeDiffQ now refs ∨ pB = tB := by
      rcases hqual with h | h
      · exact Or.inl (hq1.mpr h)
      · exact Or.inr h
    unfold updateStats
    rw [if_neg htd0, if_pos hqual2]
    refine ⟨rfl, ?_, ?_, ?_⟩
    · show statsSpeed now refs pB = _
      unfold statsSpeed
      rw [if_pos htdp]
      rfl
    · intro hsp
      show formatTime (statsEta now refs tB pB) = _
      unfold statsEta
      rw [if_pos hsp]
    · intro hsp
      show formatTime (statsEta now refs tB pB) = _
      unfold statsEta
      rw [if_neg hsp]
      unfold formatTime
      norm_num
  · rintro ⟨hpos, hcomp⟩
    have htd0 : ¬ timeDiffQ now refs = 0 := by
      intro h0
      have := hq0.mp h0
      omega
    unfold updateStats
    rw [if_neg htd0, if_pos (Or.inr hcomp)]
    show formatTime (statsEta now refs tB pB) = _
    unfold statsEta
    by_cases hsp : 0 < statsSpeed now refs pB
    · rw [if_pos hsp]
      rw [hcomp]
      simp only [sub_self, Int.cast_zero, zero_div]
      unfold formatTime
      norm_num
    · rw [if_neg hsp]
      unfold formatTime
      norm_num
  · rintro ⟨hne, hlt, hneq⟩
    have htd0 : ¬ timeDiffQ now refs = 0 := fun h0 => hne (hq0.mp h0)
    have hq : ¬ (1 ≤ timeDiffQ now refs ∨ pB = tB) := by
      rintro (h | h)
      · exact hlt (hq1.mp h)
      · exact hneq h
    unfold updateStats
    rw [if_neg htd0, if_neg hq]

/-- Witness for C9 (amended): a qualifying sample one second after the
last one with a 500-byte delta computes a rate of exactly 500 bytes per
second. -/
theorem C9_updateStats_witness :
    (updateStats 1000 { lastTime := 0, lastBytes := 0 } initStatsView
      2000 500 "f" 1 0).2.speed = 500 := by
  have h := (C9_updateStats_amended 1000 { lastTime := 0, lastBytes := 0 } initStatsView
    2000 500 "f" 1 0).2.1 ⟨by decide, Or.inl (by decide)⟩
  rw [h.2.1]
  norm_num

end LocalLink
